import Mathlib

/-!
Verification of the Dev_Api_Vault repository against its specification.

The repository is a FastAPI application (`app/main.py`, `app/middleware.py`,
`app/routers.py`, `app/security.py`, `app/utils.py`, `app/models.py`,
`app/config.py`).  This file gives a shallow embedding of the parts of the
code the claims are about:

* the two rate limiters: `RateLimiterMiddleware` in `app/main.py`
  (the one installed on the app, 100 requests / 3600 s) and
  `RateLimitMiddleware` in `app/middleware.py` (per-minute sliding window);
* the API-key gate `verify_rapidapi_secret` in `app/security.py`;
* the utility endpoints of `app/routers.py` together with the pydantic
  request models of `app/models.py` (length limits and custom validators)
  and the sanitisation helpers of `app/utils.py`;
* the extractive summarizer of `summarize_text` in `app/routers.py`.

Conventions of the embedding:

* Python `int` timestamps (`int(time.time())` in `app/main.py`) are `Int`;
  the float timestamps of `app/middleware.py` (`time.time()`) are `ℚ`
  (exact arithmetic; the code only subtracts and compares timestamps).
* Python floats in the summarizer (frequency normalisation and sentence
  scores) are modelled as `ℚ`.
* Exceptions raised by an endpoint are modelled by the result type
  `ApiResult`; `validationError` is a pydantic request-validation failure
  (FastAPI answers it with HTTP status 422 and a structured body),
  `httpError s d` is a `fastapi.HTTPException(status_code := s, detail := d)`.
* External libraries (`markdown.markdown`, `qrcode`, `re.findall`,
  NLTK's `sent_tokenize` / `word_tokenize` / `stopwords`) are parameters of
  the endpoint models; everything the repository itself computes around
  them is translated from the source.
* Python strings are `String`; `len`, slicing and character tests operate
  on code points, i.e. on `String.data : List Char`.  Character
  classification (`str.isalnum`, `\s`, `str.strip`) is modelled for the
  ASCII range.
-/

namespace DevApiVault

/-! ## Python string primitives (`app/utils.py` helpers operate on these) -/

/-- Characters stripped by Python's `str.strip()` and matched by `\s`
(ASCII range): space, tab, newline, carriage return, vertical tab, form feed. -/
def pyIsSpace (c : Char) : Bool :=
  c = ' ' || c = '\t' || c = '\n' || c = '\r' || c = '\x0b' || c = '\x0c'

/-- Python `str.strip()` on a list of characters. -/
def pyStripList (l : List Char) : List Char :=
  ((l.dropWhile pyIsSpace).reverse.dropWhile pyIsSpace).reverse

/-- Python `str.strip()`. -/
def pyStrip (s : String) : String :=
  String.mk (pyStripList s.data)

/-- Python `str.lower()` (ASCII range). -/
def pyLower (s : String) : String :=
  String.mk (s.data.map Char.toLower)

/-- Python `str.isalnum()` for a single character (ASCII range). -/
def pyIsAlnumChar (c : Char) : Bool :=
  c.isAlpha || c.isDigit

/-- Python `str.isalnum()`: non-empty and every character alphanumeric. -/
def pyIsAlnum (s : String) : Bool :=
  !s.data.isEmpty && s.data.all pyIsAlnumChar

/-- Control characters removed by `sanitize_user_input` in `app/utils.py`:
`[\x00-\x08\x0B-\x0C\x0E-\x1F\x7F]` (note: tab `\x09`, newline `\x0A` and
carriage return `\x0D` are kept). -/
def isStrippedCtl (c : Char) : Bool :=
  (c.toNat ≤ 0x08) || (0x0B ≤ c.toNat && c.toNat ≤ 0x0C) ||
    (0x0E ≤ c.toNat && c.toNat ≤ 0x1F) || (c.toNat = 0x7F)

/-- `re.sub(r'\s+', ' ', text)`: replace every maximal run of whitespace by a
single space.  The flag records whether the previous character was whitespace. -/
def collapseWsAux : Bool → List Char → List Char
  | _, [] => []
  | prevSpace, c :: rest =>
    if pyIsSpace c then
      if prevSpace then collapseWsAux true rest
      else ' ' :: collapseWsAux true rest
    else c :: collapseWsAux false rest

/-- `sanitize_user_input(text, max_length)` from `app/utils.py`:
empty guard, slice to `max_length`, drop control characters, collapse
whitespace runs, strip. -/
def sanitize_user_input (text : String) (maxLength : Nat) : String :=
  if text.data.isEmpty then ""
  else
    let sliced := text.data.take maxLength
    let noCtl := sliced.filter (fun c => !isStrippedCtl c)
    let collapsed := collapseWsAux false noCtl
    String.mk (pyStripList collapsed)

/-- Python `str.split()` with no argument: split on whitespace runs,
dropping empty pieces (used by the `TextSummarizeRequest` validator). -/
def pySplitWsAux : List Char → List Char → List (List Char)
  | acc, [] => if acc.isEmpty then [] else [acc.reverse]
  | acc, c :: rest =>
    if pyIsSpace c then
      if acc.isEmpty then pySplitWsAux [] rest
      else acc.reverse :: pySplitWsAux [] rest
    else pySplitWsAux (c :: acc) rest

def pySplitWs (s : String) : List String :=
  (pySplitWsAux [] s.data).map String.mk

/-! ## `app/security.py`: the API-key gate -/

/-- An HTTP error raised as a `fastapi.HTTPException`. -/
structure HttpError where
  status : Nat
  detail : String
deriving DecidableEq, Repr

/-- Python truthiness of `settings.rapidapi_proxy_secret : Optional[str]`
and of the `api_key` extracted by `APIKeyHeader(auto_error=False)`:
`None` and the empty string are falsy. -/
def optTruthy : Option String → Bool
  | none => false
  | some s => !s.data.isEmpty

/-- `Settings.is_development` from `app/config.py`:
`fastapi_env.lower() == "development"`. -/
def is_development (fastapiEnv : String) : Bool :=
  pyLower fastapiEnv = "development"

/-- `verify_rapidapi_secret` from `app/security.py`.  `secret` is
`settings.rapidapi_proxy_secret`, `apiKey` the value of the
`X-RapidAPI-Proxy-Secret` request header (`none` when absent). -/
def verify_rapidapi_secret (fastapiEnv : String) (secret : Option String)
    (apiKey : Option String) : Except HttpError Unit :=
  if is_development fastapiEnv && !optTruthy secret then
    .ok ()
  else if !optTruthy secret then
    .error ⟨500, "API secret not configured on the server."⟩
  else if !optTruthy apiKey || apiKey ≠ secret then
    .error ⟨403, "Invalid or missing API secret."⟩
  else
    .ok ()

/-! ## Endpoint result type -/

/-- Result of a request to one of the `/api/v1` endpoints, after the API-key
gate.  `validationError` is a pydantic request-model validation failure,
which FastAPI converts to an HTTP 422 response; `httpError` is an
`HTTPException` with the given status code and detail string. -/
inductive ApiResult (α : Type) where
  | ok (value : α)
  | httpError (status : Nat) (detail : String)
  | validationError
deriving DecidableEq, Repr

/-! ## `app/routers.py` + `app/models.py`: markdown-to-html and qr-code -/

structure HtmlResponse where
  html_content : String
deriving DecidableEq, Repr

/-- Request validation of `MarkdownRequest` (`app/models.py`):
`min_length=1`, `max_length=10000`, and the custom validator rejecting
whitespace-only text. -/
def markdownRequestValid (text : String) : Bool :=
  1 ≤ text.length && text.length ≤ 10000 && !(pyStrip text).data.isEmpty

/-- `convert_markdown_to_html` from `app/routers.py`, behind the
`MarkdownRequest` model.  `markdownLib` abstracts `markdown.markdown` with
the extensions configured in the source.  The handler's `try` block is
wrapped by `except Exception`, which also catches the `HTTPException(400)`
of `validate_text_length` and turns it into a 500; that branch is
unreachable because the request model already enforces `max_length=10000`. -/
def convert_markdown_to_html (markdownLib : String → String)
    (text : String) : ApiResult HtmlResponse :=
  if markdownRequestValid text then
    if text.length > 10000 then .httpError 500 "Markdown conversion failed"
    else .ok ⟨markdownLib (sanitize_user_input text 10000)⟩
  else .validationError

structure QrCodeResponse where
  qr_code_base64 : String
deriving DecidableEq, Repr

/-- Request validation of `QrCodeRequest` (`app/models.py`):
`data` has `max_length=2000`, `box_size` is in (0, 50], `border` in [0, 20]. -/
def qrRequestValid (data : String) (boxSize border : Int) : Bool :=
  data.length ≤ 2000 && 0 < boxSize && boxSize ≤ 50 && 0 ≤ border && border ≤ 20

/-- `generate_qr_code` from `app/routers.py`.  `qrLib` abstracts the
`qrcode` library (producing the base64-encoded PNG for given data, box size
and border).  As in `convert_markdown_to_html`, the in-handler length check
would surface as a 500 but is unreachable behind the request model. -/
def generate_qr_code (qrLib : String → Int → Int → String)
    (data : String) (boxSize border : Int) : ApiResult QrCodeResponse :=
  if qrRequestValid data boxSize border then
    if data.length > 2000 then .httpError 500 "QR code generation failed"
    else .ok ⟨"data:image/png;base64," ++ qrLib data (min boxSize 50) (min border 20)⟩
  else .validationError

/-! ## `app/utils.py`: `validate_regex_safety` -/

/-- Is `pat` an infix of `l`?  Used for the literal dangerous patterns
of `validate_regex_safety` (each of `\(\?\#`, `\(\?\<`, `\(\?\=`, `\*\+`,
`\+\*`, `\*\*`, `\+\+` matches one fixed character sequence). -/
def containsSeq (pat : List Char) (l : List Char) : Bool :=
  match l with
  | [] => pat.isEmpty
  | _ :: rest => pat.isPrefixOf l || containsSeq pat rest

/-- Does the string contain a substring matched by `\{\d+,\}`:
a `{`, one or more digits, a comma, a `}`?  (`re.search` of the last
dangerous pattern in `validate_regex_safety`.) -/
def containsBraceQuant : List Char → Bool
  | [] => false
  | c :: rest =>
    (c = '\x7b' &&
      (let ds := rest.takeWhile Char.isDigit
       !ds.isEmpty &&
         match rest.drop ds.length with
         | ',' :: '\x7d' :: _ => true
         | _ => false)) ||
    containsBraceQuant rest

/-- Parenthesis-nesting scan of `validate_regex_safety`: running level,
`false` as soon as the level exceeds 10. -/
def nestingOk : Int → List Char → Bool
  | _, [] => true
  | level, c :: rest =>
    if c = '(' then
      if level + 1 > 10 then false else nestingOk (level + 1) rest
    else if c = ')' then nestingOk (level - 1) rest
    else nestingOk level rest

/-- `validate_regex_safety` from `app/utils.py`. -/
def validate_regex_safety (pattern : String) : Bool :=
  let p := pattern.data
  !(containsSeq ['(', '?', '#'] p) &&
  !(containsSeq ['(', '?', '<'] p) &&
  !(containsSeq ['(', '?', '='] p) &&
  !(containsSeq ['*', '+'] p) &&
  !(containsSeq ['+', '*'] p) &&
  !(containsSeq ['*', '*'] p) &&
  !(containsSeq ['+', '+'] p) &&
  !(containsBraceQuant p) &&
  !(pattern.length > 1000) &&
  nestingOk 0 p

/-! ## `app/routers.py`: regex tester -/

structure RegexResponse where
  «matches» : List String
  match_count : Nat
deriving DecidableEq, Repr

/-- Request validation of `RegexRequest` (`app/models.py`): `pattern` has
`max_length=1000`, `text` has `max_length=50000`, and the custom validator
requires the pattern to compile (`compiles` abstracts `re.compile` success). -/
def regexRequestValid (compiles : String → Bool) (pattern text : String) : Bool :=
  pattern.length ≤ 1000 && text.length ≤ 50000 && compiles pattern

/-- `test_regex` from `app/routers.py`.  `findall` abstracts
`re.compile(pattern).findall`.  The handler's `except` clauses are
`except re.error` then `except Exception`; an `HTTPException` raised inside
the `try` block (the length checks and the regex-safety rejection, which the
source raises as a 400) is therefore caught by `except Exception` and
re-raised as `HTTPException(500, "Regex testing failed")`.  Matching runs on
the sanitised text, and the match list is truncated to 1000 entries. -/
def test_regex (findall : String → String → List String)
    (compiles : String → Bool) (pattern text : String) : ApiResult RegexResponse :=
  if regexRequestValid compiles pattern text then
    if text.length > 50000 || pattern.length > 1000 then
      .httpError 500 "Regex testing failed"
    else if !validate_regex_safety pattern then
      .httpError 500 "Regex testing failed"
    else
      let sanitized := sanitize_user_input text 50000
      let found := findall pattern sanitized
      let found := if found.length > 1000 then found.take 1000 else found
      .ok ⟨found, found.length⟩
  else .validationError

/-! ## `app/routers.py`: extractive summarizer -/

structure SummaryResponse where
  original_sentence_count : Nat
  summary : String
  summary_sentence_count : Nat
deriving DecidableEq, Repr

/-- Request validation of `TextSummarizeRequest` (`app/models.py`):
`text` has `min_length=50`, `max_length=100000`; `sentence_count` is in
(0, 20]; the custom validator rejects whitespace-only text and text with
fewer than 10 whitespace-separated words. -/
def summarizeRequestValid (text : String) (sentenceCount : Nat) : Bool :=
  50 ≤ text.length && text.length ≤ 100000 &&
  0 < sentenceCount && sentenceCount ≤ 20 &&
  !(pyStrip text).data.isEmpty && 10 ≤ (pySplitWs text).length

/-- `'. '.join(...)` on a list of sentences. -/
def joinDotSpace : List String → String
  | [] => ""
  | [s] => s
  | s :: rest => s ++ ". " ++ joinDotSpace rest

/-- The tokens counted by the `word_frequencies` loop of `summarize_text`:
`word_tokenize(request.text.lower())` filtered to alphanumeric non-stopword
tokens.  Each key of the `word_frequencies` dict is an element of this list,
and the count of a key is its multiplicity here. -/
def freqWords (wordTok : String → List String) (stopWords : List String)
    (text : String) : List String :=
  (wordTok (pyLower text)).filter (fun w => pyIsAlnum w && !stopWords.contains w)

/-- `word_frequencies[w]` before normalisation: the number of occurrences. -/
def rawFreq (wordTok : String → List String) (stopWords : List String)
    (text : String) (w : String) : Nat :=
  (freqWords wordTok stopWords text).count w

/-- `max_freq = max(word_frequencies.values())`: since every value occurs
at the position of each of its tokens, this is the maximal multiplicity. -/
def maxFreq (wordTok : String → List String) (stopWords : List String)
    (text : String) : Nat :=
  ((freqWords wordTok stopWords text).map
    (rawFreq wordTok stopWords text)).foldr max 0

/-- The normalised frequency `word_frequencies[w] / max_freq`. -/
def normFreq (wordTok : String → List String) (stopWords : List String)
    (text : String) (w : String) : ℚ :=
  (rawFreq wordTok stopWords text w : ℚ) / (maxFreq wordTok stopWords text : ℚ)

/-- The tokens of sentence `s` that are keys of `word_frequencies`
(`word_tokenize(sentence.lower())` filtered by `word in word_frequencies`). -/
def sentenceWords (wordTok : String → List String) (stopWords : List String)
    (text : String) (s : String) : List String :=
  (wordTok (pyLower s)).filter (fun w => (freqWords wordTok stopWords text).contains w)

/-- `sentence_scores[i]` for a scored sentence: the sum of the normalised
frequencies of its in-table tokens, divided by their number. -/
def sentenceScore (wordTok : String → List String) (stopWords : List String)
    (text : String) (s : String) : ℚ :=
  ((sentenceWords wordTok stopWords text s).map
      (normFreq wordTok stopWords text)).sum /
    ((sentenceWords wordTok stopWords text s).length : ℚ)

/-- The keys of the `sentence_scores` dict in insertion order: the loop runs
over sentences in index order and inserts `i` the first time a token of
sentence `i` is found in `word_frequencies`, so the keys are exactly the
indices of sentences with at least one in-table token, ascending. -/
def scoredIndices (sentTok wordTok : String → List String)
    (stopWords : List String) (text : String) : List Nat :=
  (List.range (sentTok text).length).filter
    (fun i => !(sentenceWords wordTok stopWords text ((sentTok text).getD i "")).isEmpty)

/-- The comparison realised by `heapq.nlargest(count, sentence_scores,
key=sentence_scores.get)`: `nlargest` equals the stable descending sort by
score, and stability breaks ties by dict insertion order, i.e. by ascending
sentence index.  On the duplicate-free index list this lexicographic
comparison has a unique sorted order, so any correct sort computes it. -/
def scoreGE (wordTok : String → List String) (stopWords : List String)
    (text : String) (sentences : List String) (i j : Nat) : Bool :=
  decide (sentenceScore wordTok stopWords text (sentences.getD j "") <
      sentenceScore wordTok stopWords text (sentences.getD i "")) ||
  (decide (sentenceScore wordTok stopWords text (sentences.getD i "") =
      sentenceScore wordTok stopWords text (sentences.getD j "")) && decide (i ≤ j))

/-- Insert into a sorted list (kernel-computable insertion sort; on the
duplicate-free index lists sorted here, the lexicographic comparisons are
antisymmetric, so the sorted result is unique and equals the one produced
by Python's stable `sorted`/`heapq.nlargest`). -/
def insertSorted (le : Nat → Nat → Bool) (a : Nat) : List Nat → List Nat
  | [] => [a]
  | b :: l => if le a b then a :: b :: l else b :: insertSorted le a l

def sortBy (le : Nat → Nat → Bool) : List Nat → List Nat
  | [] => []
  | a :: l => insertSorted le a (sortBy le l)

/-- `summary_sentences_indices` after the final `.sort()`: the top
`sentenceCount` scored indices (`heapq.nlargest` = stable descending sort
by score, ties broken by dict insertion order = ascending index),
re-sorted ascending. -/
def selectedIndices (sentTok wordTok : String → List String)
    (stopWords : List String) (text : String) (sentenceCount : Nat) : List Nat :=
  sortBy (fun i j => decide (i ≤ j))
    ((sortBy (scoreGE wordTok stopWords text (sentTok text))
      (scoredIndices sentTok wordTok stopWords text)).take sentenceCount)

/-- The body of `summarize_text` from `app/routers.py` after request
validation and the outer length check.  `sentTok` abstracts NLTK's
`sent_tokenize`, `wordTok` its `word_tokenize`, `stopWords` the English
stopword list (the source falls back to the empty set when the NLTK data is
missing, which is the `stopWords = []` instance). -/
def summarizeCore (sentTok wordTok : String → List String)
    (stopWords : List String) (text : String) (sentenceCount : Nat) :
    SummaryResponse :=
  let sentences := sentTok text
  let n := sentences.length
  if n ≤ sentenceCount then
    ⟨n, pyStrip text, n⟩
  else if (freqWords wordTok stopWords text).isEmpty then
    ⟨n, joinDotSpace (sentences.take sentenceCount), min sentenceCount n⟩
  else
    let selected := selectedIndices sentTok wordTok stopWords text sentenceCount
    ⟨n, joinDotSpace (selected.map (fun i => sentences.getD i "")), selected.length⟩

/-- `summarize_text` from `app/routers.py` behind `TextSummarizeRequest`.
As in the other handlers, the `HTTPException(400)` of the in-handler length
check would be swallowed by `except Exception` and surface as a 500, but the
request model's `max_length=100000` makes that branch unreachable. -/
def summarize_text (sentTok wordTok : String → List String)
    (stopWords : List String) (text : String) (sentenceCount : Nat) :
    ApiResult SummaryResponse :=
  if summarizeRequestValid text sentenceCount then
    if text.length > 100000 then .httpError 500 "Text summarization failed"
    else .ok (summarizeCore sentTok wordTok stopWords text sentenceCount)
  else .validationError

/-! ## Python-dict helpers

Both rate limiters keep per-IP state in a `dict` keyed by the client IP.
A dict is modelled as an association list with pairwise-distinct keys;
`dictUpsert` is `d[k] = v` (update in place, or append a new key, matching
insertion-order semantics), `dictGet` is `d.get(k)`. -/

def dictGet {β : Type} (k : String) (d : List (String × β)) : Option β :=
  List.lookup k d

def dictUpsert {β : Type} (k : String) (v : β) : List (String × β) → List (String × β)
  | [] => [(k, v)]
  | (k', v') :: rest =>
    if k' = k then (k', v) :: rest else (k', v') :: dictUpsert k v rest

/-- Pairwise-distinct keys: the invariant every Python dict satisfies. -/
def dictKeysOk {β : Type} (d : List (String × β)) : Prop :=
  (d.map Prod.fst).Nodup

/-! ## `app/main.py`: `RateLimiterMiddleware` (the limiter installed on the
app, `limit=100`, `window=3600`) -/

/-- One value of `self.requests`: `{"count": c, "timestamp": ts}`.
`timestamp` is the time of the client's first request since its entry was
last created and is never updated. -/
structure MainEntry where
  count : Nat
  timestamp : Int
deriving DecidableEq, Repr

abbrev MainState := List (String × MainEntry)

/-- Outcome of one request through `RateLimiterMiddleware.dispatch`:
either the `RateLimitExceeded` (HTTP 429) exception with its `Retry-After`
value, or a response carrying the three `X-RateLimit-*` headers. -/
inductive MainOutcome where
  | rejected (retryAfter : Int)
  | accepted (limit : Nat) (remaining : Int) (reset : Int)
deriving DecidableEq, Repr

/-- The cleanup loop of `dispatch`: delete every entry whose stored
timestamp is more than `window` seconds old. -/
def mainCleanup (window : Nat) (t : Int) (s : MainState) : MainState :=
  s.filter (fun e => decide (t - e.2.timestamp ≤ window))

/-- The entry written back by `dispatch`: a fresh `{"count": 1,
"timestamp": current_time}` when the client has no (surviving) entry, else
the entry with its count incremented. -/
def mainEntryOf (t : Int) : Option MainEntry → MainEntry
  | none => ⟨1, t⟩
  | some e => ⟨e.count + 1, e.timestamp⟩

/-- The outcome computed by `dispatch` from the written-back entry: the 429
with `Retry-After: window - (current_time - timestamp)` when the count
exceeds the limit, else the response with the three rate-limit headers. -/
def mainOutcomeOf (limit window : Nat) (t : Int) (entry : MainEntry) : MainOutcome :=
  if entry.count > limit then
    .rejected ((window : Int) - (t - entry.timestamp))
  else
    .accepted limit ((limit : Int) - (entry.count : Int)) (entry.timestamp + (window : Int))

/-- `RateLimiterMiddleware.dispatch` for a request from `ip` at time `t`
to a non-exempt path (paths `/health`, `/docs`, `/redoc`, `/openapi.json`
bypass the limiter entirely).  The count is incremented before the limit
check, so a rejected request still consumes count. -/
def mainDispatch (limit window : Nat) (ip : String) (t : Int) (s : MainState) :
    MainOutcome × MainState :=
  let s1 := mainCleanup window t s
  let entry := mainEntryOf t (dictGet ip s1)
  (mainOutcomeOf limit window t entry, dictUpsert ip entry s1)

/-- Outcomes of a sequence of non-exempt requests through
`RateLimiterMiddleware`. -/
def mainRun (limit window : Nat) (s : MainState) : List (String × Int) → List MainOutcome
  | [] => []
  | (ip, t) :: rest =>
    (mainDispatch limit window ip t s).1 ::
      mainRun limit window (mainDispatch limit window ip t s).2 rest

/-- Final state after a sequence of requests. -/
def mainFinal (limit window : Nat) (s : MainState) : List (String × Int) → MainState
  | [] => s
  | (ip, t) :: rest => mainFinal limit window (mainDispatch limit window ip t s).2 rest

/-- The per-client effect of the cleanup loop: the entry survives iff its
stored timestamp is within the window of the current time. -/
def staleDrop (window : Nat) (t : Int) : Option MainEntry → Option MainEntry
  | none => none
  | some e => if (window : Int) < t - e.timestamp then none else some e

/-- Per-client view of `RateLimiterMiddleware`: the entry of a fixed client
evolves only with that client's own requests, because the cleanup performed
during other clients' requests deletes exactly the entries that the cleanup
at the client's own next (no earlier) request would delete anyway. -/
def mainClientStep (limit window : Nat) (e : Option MainEntry) (t : Int) :
    MainOutcome × MainEntry :=
  let entry := mainEntryOf t (staleDrop window t e)
  (mainOutcomeOf limit window t entry, entry)

/-- Pure run of the per-client view over all clients. -/
def mainPureRun (limit window : Nat) (g : String → Option MainEntry) :
    List (String × Int) → List MainOutcome
  | [] => []
  | (ip, t) :: rest =>
    (mainClientStep limit window (g ip) t).1 ::
      mainPureRun limit window
        (fun x => if x = ip then some (mainClientStep limit window (g ip) t).2 else g x) rest

/-- Run of the per-client view over one client's own request times. -/
def mainClientRun (limit window : Nat) (e : Option MainEntry) : List Int → List MainOutcome
  | [] => []
  | t :: ts =>
    (mainClientStep limit window e t).1 ::
      mainClientRun limit window (some (mainClientStep limit window e t).2) ts

/-! ## `app/middleware.py`: `RateLimitMiddleware` (per-minute sliding
window; defined in the repository, not installed in `app/main.py`) -/

/-- State of `RateLimitMiddleware`: `request_history` is a
`defaultdict(deque)` mapping an IP to the deque of its recorded request
timestamps, oldest first; `last_cleanup` is the time of the last periodic
cleanup (initially the construction time). -/
structure MwState where
  history : List (String × List ℚ)
  lastCleanup : ℚ
deriving DecidableEq, Repr

/-- Outcome of one request through `RateLimitMiddleware.dispatch`: the
HTTP 429 `HTTPException` (with `Retry-After: 60`), or a response with the
three `X-RateLimit-*` headers (`X-RateLimit-Reset` is
`str(int(current_time + 60))`, hence the floor). -/
inductive MwOutcome where
  | rejected
  | accepted (limit remaining : Nat) (reset : Int)
deriving DecidableEq, Repr

/-- `defaultdict` read: a missing key denotes the empty deque. -/
def histGet (h : List (String × List ℚ)) (ip : String) : List ℚ :=
  (dictGet ip h).getD []

/-- `_cleanup_old_entries(current_time)`: pop timestamps older than 300
seconds from the front of every deque, then delete IPs whose deque became
empty. -/
def mwCleanup (t : ℚ) (h : List (String × List ℚ)) : List (String × List ℚ) :=
  (h.map (fun e => (e.1, e.2.dropWhile (fun r => decide (300 < t - r))))).filter
    (fun e => !e.2.isEmpty)

/-- `_is_rate_limited(client_ip, current_time)`: pop timestamps older than
60 seconds from the front of the client's deque (mutating the dict — the
`defaultdict` read materialises an entry), then compare the remaining
length with the per-minute limit. -/
def mwIsRateLimited (rpm : Nat) (ip : String) (t : ℚ)
    (h : List (String × List ℚ)) : Bool × List (String × List ℚ) :=
  let q := (histGet h ip).dropWhile (fun r => decide (60 < t - r))
  (decide (rpm ≤ q.length), dictUpsert ip q h)

/-- `RateLimitMiddleware.dispatch` for a request from `ip` at time `t` to a
non-exempt path (paths `/`, `/health`, `/docs`, `/redoc`, `/openapi.json`
bypass the limiter).  The periodic cleanup runs first when more than 300
seconds (`cleanup_interval`) passed since the last one; a rejected request
is not recorded; an accepted one is appended before the headers are
computed. -/
def mwDispatch (rpm : Nat) (ip : String) (t : ℚ) (s : MwState) :
    MwOutcome × MwState :=
  let s1 : MwState :=
    if 300 < t - s.lastCleanup then ⟨mwCleanup t s.history, t⟩ else s
  let res := mwIsRateLimited rpm ip t s1.history
  if res.1 then
    (.rejected, ⟨res.2, s1.lastCleanup⟩)
  else
    let h3 := dictUpsert ip (histGet res.2 ip ++ [t]) res.2
    (.accepted rpm (rpm - (histGet h3 ip).length) ⌊t + 60⌋, ⟨h3, s1.lastCleanup⟩)

/-- Outcomes of a sequence of non-exempt requests through
`RateLimitMiddleware`. -/
def mwRun (rpm : Nat) (s : MwState) : List (String × ℚ) → List MwOutcome
  | [] => []
  | (ip, t) :: rest =>
    (mwDispatch rpm ip t s).1 :: mwRun rpm (mwDispatch rpm ip t s).2 rest

/-- Final state after a sequence of requests. -/
def mwFinal (rpm : Nat) (s : MwState) : List (String × ℚ) → MwState
  | [] => s
  | (ip, t) :: rest => mwFinal rpm (mwDispatch rpm ip t s).2 rest

/-! ## The sliding-window specification (from the claim's wording) -/

/-- The number of timestamps of `recorded` lying within the 60-second
window ending at `t`. -/
def inWindowCount (recorded : List ℚ) (t : ℚ) : Nat :=
  (recorded.filter (fun r => decide (t - r ≤ 60))).length

/-- One request of a single client against the sliding-window
specification: reject iff the number of already-recorded timestamps within
the window has reached the limit, record the request otherwise.  The header
values match `RateLimitMiddleware.dispatch`. -/
def slidingStep (rpm : Nat) (recorded : List ℚ) (t : ℚ) : MwOutcome × List ℚ :=
  if rpm ≤ inWindowCount recorded t then
    (.rejected, recorded)
  else
    (.accepted rpm (rpm - (inWindowCount recorded t + 1)) ⌊t + 60⌋, recorded ++ [t])

/-- Pure run of the sliding-window specification over all clients, keyed by
client IP. -/
def mwPureRun (rpm : Nat) (f : String → List ℚ) : List (String × ℚ) → List MwOutcome
  | [] => []
  | (ip, t) :: rest =>
    (slidingStep rpm (f ip) t).1 ::
      mwPureRun rpm (fun x => if x = ip then (slidingStep rpm (f ip) t).2 else f x) rest

/-- The accumulated per-client recorded timestamps after a trace. -/
def mwPureAcc (rpm : Nat) (f : String → List ℚ) :
    List (String × ℚ) → String → List ℚ
  | [], x => f x
  | (ip, t) :: rest, x =>
    mwPureAcc rpm (fun y => if y = ip then (slidingStep rpm (f ip) t).2 else f y) rest x

/-- Run of the sliding-window specification over one client's own times. -/
def mwClientRun (rpm : Nat) (recorded : List ℚ) : List ℚ → List MwOutcome
  | [] => []
  | t :: ts =>
    (slidingStep rpm recorded t).1 :: mwClientRun rpm (slidingStep rpm recorded t).2 ts

/-- The timestamps of the requests of `ip` in `trace` that the paired
outcome recorded (i.e. did not reject): the claim's "requests already
recorded for that IP". -/
def recordedTimes (ip : String) : List (String × ℚ) → List MwOutcome → List ℚ
  | [], _ => []
  | _, [] => []
  | (ip', t) :: rest, o :: os =>
    (if ip' = ip ∧ o ≠ .rejected then [t] else []) ++ recordedTimes ip rest os

/-- The outcomes belonging to the requests of `ip` within a trace. -/
def outcomesAt {τ α : Type} (ip : String) : List (String × τ) → List α → List α
  | [], _ => []
  | _, [] => []
  | (ip', _) :: rest, o :: os =>
    if ip' = ip then o :: outcomesAt ip rest os else outcomesAt ip rest os

/-- Integer-time variant of `inWindowCount` for a window of `window`
seconds, stated from the claim's wording, for comparison with the hourly
limiter of `app/main.py`. -/
def inWindowCountInt (window : Nat) (recorded : List Int) (t : Int) : Nat :=
  (recorded.filter (fun r => decide (t - r ≤ window))).length

/-- Was the request rejected with HTTP 429? -/
def MainOutcome.isRejected : MainOutcome → Bool
  | .rejected _ => true
  | .accepted _ _ _ => false

/-! ## Simulation invariants

The laziness of the deque pruning is captured by the following relation
between a middleware deque and the full list `acc` of the client's
recorded timestamps: the deque is a suffix of `acc`, and every timestamp
that was already dropped from the front is more than 60 seconds old — so
dropping it was sound, and pruning the suffix at any later time yields the
same result as pruning all of `acc`. -/

def HistInv (τ : ℚ) (acc hist : List ℚ) : Prop :=
  ∃ k, k ≤ acc.length ∧ hist = acc.drop k ∧ ∀ r ∈ acc.take k, 60 < τ - r

/-- Recorded timestamps are sorted (requests arrive in time order) and no
later than the current time. -/
def AccOk (τ : ℚ) (acc : List ℚ) : Prop :=
  acc.Sorted (· ≤ ·) ∧ ∀ r ∈ acc, r ≤ τ

/-- Simulation relation between the `RateLimitMiddleware` state and the
per-client recorded-timestamp map `f` of the sliding-window specification,
at current time `τ`. -/
def MwRel (τ : ℚ) (s : MwState) (f : String → List ℚ) : Prop :=
  dictKeysOk s.history ∧ ∀ ip, AccOk τ (f ip) ∧ HistInv τ (f ip) (histGet s.history ip)

/-- Simulation relation between the `RateLimiterMiddleware` state and the
per-client entry map `g`: each client's entry agrees, except that the full
run may already have deleted (during another client's request) an entry
that the per-client view still holds — in which case that entry is stale,
and the cleanup at the client's own next request deletes it too. -/
def MainRel (window : Nat) (τ : Int) (s : MainState) (g : String → Option MainEntry) : Prop :=
  dictKeysOk s ∧ ∀ ip,
    match g ip, dictGet ip s with
    | none, none => True
    | some e, some e' => e = e'
    | some e, none => (window : Int) < τ - e.timestamp
    | none, some _ => False

/-- The timestamps of the requests of `ip` in an integer-time trace whose
paired outcome was not a rejection. -/
def recordedTimesInt (ip : String) : List (String × Int) → List MainOutcome → List Int
  | [], _ => []
  | _, [] => []
  | (ip', t) :: rest, o :: os =>
    (if ip' = ip ∧ o.isRejected = false then [t] else []) ++ recordedTimesInt ip rest os

/-! ## Concrete tokenizer instances

The endpoint models abstract NLTK's tokenizers as parameters.  For concrete
evaluations we instantiate them with simple splitters whose output on the
specific inputs used agrees with NLTK's in every respect the evaluation
depends on (sentence boundaries at `'. '`, words separated by spaces). -/

/-- Split a character list at every occurrence of `sep` (keeping empty
pieces). -/
def splitCharAux (sep : Char) : List Char → List Char → List (List Char)
  | acc, [] => [acc.reverse]
  | acc, c :: rest =>
    if c = sep then acc.reverse :: splitCharAux sep [] rest
    else splitCharAux sep (c :: acc) rest

/-- A naive sentence tokenizer: split at periods, strip the pieces, drop
empty pieces. -/
def naiveSentences (s : String) : List String :=
  (((splitCharAux '.' [] s.data).map pyStripList).filter
    (fun l => !l.isEmpty)).map String.mk

/-- A naive word tokenizer: split on whitespace. -/
def naiveWords (s : String) : List String :=
  pySplitWs s

end DevApiVault

namespace DevApiVault

/-! # Theorems -/

/-! ## Helper lemmas for the length-limit claims (C5) -/

theorem markdown_long_validationError (lib : String → String) (t : String)
    (h : 10000 < t.length) :
    convert_markdown_to_html lib t = .validationError := by
  have hv : markdownRequestValid t = false := by
    simp [markdownRequestValid, show ¬ t.length ≤ 10000 from by omega]
  simp [convert_markdown_to_html, hv]

theorem qr_long_validationError (lib : String → Int → Int → String)
    (d : String) (b bo : Int) (h : 2000 < d.length) :
    generate_qr_code lib d b bo = .validationError := by
  have hv : qrRequestValid d b bo = false := by
    simp [qrRequestValid, show ¬ d.length ≤ 2000 from by omega]
  simp [generate_qr_code, hv]

theorem regex_long_pattern_validationError (findall : String → String → List String)
    (compiles : String → Bool) (p t : String) (h : 1000 < p.length) :
    test_regex findall compiles p t = .validationError := by
  have hv : regexRequestValid compiles p t = false := by
    simp [regexRequestValid, show ¬ p.length ≤ 1000 from by omega]
  simp [test_regex, hv]

theorem regex_long_text_validationError (findall : String → String → List String)
    (compiles : String → Bool) (p t : String) (h : 50000 < t.length) :
    test_regex findall compiles p t = .validationError := by
  have hv : regexRequestValid compiles p t = false := by
    simp [regexRequestValid, show ¬ t.length ≤ 50000 from by omega]
  simp [test_regex, hv]

theorem summarize_long_validationError (sentTok wordTok : String → List String)
    (stopWords : List String) (t : String) (k : Nat) (h : 100000 < t.length) :
    summarize_text sentTok wordTok stopWords t k = .validationError := by
  have hv : summarizeRequestValid t k = false := by
    simp [summarizeRequestValid, show ¬ t.length ≤ 100000 from by omega]
  simp [summarize_text, hv]

theorem length_mk_replicate (n : Nat) (c : Char) :
    (String.mk (List.replicate n c)).length = n :=
  List.length_replicate n c

/-! ## C3: the API-key gate with a configured secret -/

/-- C3.  When a RapidAPI proxy secret is configured on the server (a
non-empty string), a request passes `verify_rapidapi_secret` — and hence
reaches the handler of the `/api/v1` router, whose dependency list runs the
gate before every handler — if and only if the `X-RapidAPI-Proxy-Secret`
header is present and equals the configured secret; otherwise the gate
raises HTTP 403 and the handler never runs. -/
theorem api_key_gate_iff (env s : String) (apiKey : Option String)
    (hs : s ≠ "") :
    (verify_rapidapi_secret env (some s) apiKey = .ok () ↔ apiKey = some s) ∧
    (apiKey ≠ some s →
      verify_rapidapi_secret env (some s) apiKey =
        .error ⟨403, "Invalid or missing API secret."⟩) := by
  have hd : s.data.isEmpty = false := by
    cases s with
    | mk l =>
      cases l with
      | nil => simp at hs
      | cons c cs => simp [List.isEmpty]
  have htru : optTruthy (some s) = true := by simp [optTruthy, hd]
  constructor
  · constructor
    · intro h
      by_contra hne
      simp [verify_rapidapi_secret, htru, hne] at h
    · intro h
      subst h
      simp [verify_rapidapi_secret, htru]
  · intro hne
    simp [verify_rapidapi_secret, htru, hne]

/-- Witness for C3 at a concrete configured secret and matching header. -/
theorem api_key_gate_iff_witness :
    ("sek" : String) ≠ "" ∧
    ((verify_rapidapi_secret "production" (some "sek") (some "sek") = .ok () ↔
        (some "sek" : Option String) = some "sek") ∧
      ((some "sek" : Option String) ≠ some "sek" →
        verify_rapidapi_secret "production" (some "sek") (some "sek") =
          .error ⟨403, "Invalid or missing API secret."⟩)) :=
  ⟨by decide, api_key_gate_iff "production" "sek" (some "sek") (by decide)⟩

/-! ## C10: the gate with no configured secret -/

/-- C10.  When no proxy secret is configured (unset or empty), a server in
development mode lets every request through the gate regardless of the
header, while a server in any other mode fails every gated request with
HTTP 500 and detail 'API secret not configured on the server.' before the
handler runs. -/
theorem no_secret_gate (env : String) (secret apiKey : Option String)
    (h : optTruthy secret = false) :
    (is_development env = true →
      verify_rapidapi_secret env secret apiKey = .ok ()) ∧
    (is_development env = false →
      verify_rapidapi_secret env secret apiKey =
        .error ⟨500, "API secret not configured on the server."⟩) := by
  constructor
  · intro hdev
    simp [verify_rapidapi_secret, hdev, h]
  · intro hdev
    simp [verify_rapidapi_secret, hdev, h]

/-- Witness for C10 in a non-development environment with no secret. -/
theorem no_secret_gate_witness :
    optTruthy none = false ∧
    ((is_development "production" = true →
        verify_rapidapi_secret "production" none (some "x") = .ok ()) ∧
      (is_development "production" = false →
        verify_rapidapi_secret "production" none (some "x") =
          .error ⟨500, "API secret not configured on the server."⟩)) :=
  ⟨by decide, no_secret_gate "production" none (some "x") (by decide)⟩

/-! ## C5: length limits -/

/-- C5, counterexample to the claimed status/detail.  A qr-code request
whose data exceeds 2000 characters is rejected by the `QrCodeRequest`
model's `max_length=2000` (a pydantic validation failure, HTTP 422) before
the handler runs; it is not the claimed
`HTTPException(400, 'Text too long. Maximum 2000 characters allowed.')`. -/
theorem length_limit_status_counterexample :
    generate_qr_code (fun _ _ _ => "") (String.mk (List.replicate 2001 'a')) 10 4 =
      .validationError ∧
    (ApiResult.validationError : ApiResult QrCodeResponse) ≠
      .httpError 400 "Text too long. Maximum 2000 characters allowed." := by
  constructor
  · exact qr_long_validationError _ _ _ _ (by rw [length_mk_replicate]; omega)
  · intro h
    exact ApiResult.noConfusion h

/-- C5 as amended.  A request whose text exceeds the operation's maximum
length (10000 for markdown-to-html, 2000 for qr-code data, 1000 for the
regex pattern, 50000 for the regex text, 100000 for summarize) fails with a
pydantic request-validation error (HTTP 422) — not the handler's 400 —
and the underlying library is never called: the result is `validationError`
for every choice of the library functions. -/
theorem length_limits_validation (markdownLib : String → String)
    (qrLib : String → Int → Int → String)
    (findall : String → String → List String) (compiles : String → Bool)
    (sentTok wordTok : String → List String) (stopWords : List String)
    (mdText qrData p rtext stext : String) (boxSize border : Int) (k : Nat) :
    (10000 < mdText.length →
      convert_markdown_to_html markdownLib mdText = .validationError) ∧
    (2000 < qrData.length →
      generate_qr_code qrLib qrData boxSize border = .validationError) ∧
    (1000 < p.length →
      test_regex findall compiles p rtext = .validationError) ∧
    (50000 < rtext.length →
      test_regex findall compiles p rtext = .validationError) ∧
    (100000 < stext.length →
      summarize_text sentTok wordTok stopWords stext k = .validationError) :=
  ⟨markdown_long_validationError markdownLib mdText,
   qr_long_validationError qrLib qrData boxSize border,
   fun h => regex_long_pattern_validationError findall compiles p rtext h,
   fun h => regex_long_text_validationError findall compiles p rtext h,
   summarize_long_validationError sentTok wordTok stopWords stext k⟩

/-- Witness for C5 at a concrete over-long markdown text. -/
theorem length_limits_validation_witness :
    10000 < (String.mk (List.replicate 10001 'a')).length ∧
    convert_markdown_to_html (fun s => s) (String.mk (List.replicate 10001 'a')) =
      .validationError := by
  have h : 10000 < (String.mk (List.replicate 10001 'a')).length := by
    rw [length_mk_replicate]; omega
  exact ⟨h,
    (length_limits_validation (fun s => s) (fun _ _ _ => "") (fun _ _ => [])
      (fun _ => true) (fun _ => []) (fun _ => []) []
      (String.mk (List.replicate 10001 'a')) "" "" "" "" 10 4 3).1 h⟩

/-! ## C4: the regex tester -/

/-- C4, counterexample.  `a\x7b2,\x7d` is a valid pattern of length 6 and
`aaa` a text of length 3, both within the limits; `re.findall` would return
`["aaa"]`.  But `validate_regex_safety` rejects the pattern (it contains a
`\x7b`digits`,\x7d` quantifier), the handler raises `HTTPException(400)`,
its own `except Exception` clause swallows it, and the endpoint answers
HTTP 500 'Regex testing failed' — the library result is never returned. -/
theorem regex_passthrough_counterexample :
    test_regex (fun _ _ => ["aaa"]) (fun _ => true) "a\x7b2,\x7d" "aaa" =
      .httpError 500 "Regex testing failed" ∧
    ("a\x7b2,\x7d" : String).length ≤ 1000 ∧ ("aaa" : String).length ≤ 50000 ∧
    (ApiResult.httpError 500 "Regex testing failed" : ApiResult RegexResponse) ≠
      .ok ⟨["aaa"], 1⟩ := by
  refine ⟨by decide, by decide, by decide, ?_⟩
  intro h
  exact ApiResult.noConfusion h

/-- C4 as amended.  For every pattern and text within the length limits
whose pattern compiles, if the pattern passes `validate_regex_safety` the
endpoint returns the library's match list computed on the *sanitised* text
(`sanitize_user_input`), truncated to the first 1000 matches, with
`match_count` the length of the truncated list; if the pattern fails the
safety screen the endpoint answers HTTP 500 'Regex testing failed'. -/
theorem regex_passthrough (findall : String → String → List String)
    (compiles : String → Bool) (p t : String)
    (hp : p.length ≤ 1000) (ht : t.length ≤ 50000) (hc : compiles p = true) :
    (validate_regex_safety p = true →
      test_regex findall compiles p t =
        .ok ⟨(findall p (sanitize_user_input t 50000)).take 1000,
             min 1000 (findall p (sanitize_user_input t 50000)).length⟩) ∧
    (validate_regex_safety p = false →
      test_regex findall compiles p t = .httpError 500 "Regex testing failed") := by
  have hv : regexRequestValid compiles p t = true := by
    simp [regexRequestValid, hp, ht, hc]
  have hnl : ¬ (50000 < t.length ∨ 1000 < p.length) := by omega
  constructor
  · intro hsafe
    have htrunc :
        (if (findall p (sanitize_user_input t 50000)).length > 1000 then
            (findall p (sanitize_user_input t 50000)).take 1000
          else findall p (sanitize_user_input t 50000)) =
          (findall p (sanitize_user_input t 50000)).take 1000 := by
      split
      · rfl
      · rw [List.take_of_length_le (by omega)]
    simp only [test_regex, hv, if_true]
    rw [if_neg (by simpa using hnl), if_neg (by simp [hsafe])]
    simp only [htrunc, List.length_take]
  · intro hsafe
    simp only [test_regex, hv, if_true]
    rw [if_neg (by simpa using hnl), if_pos (by simp [hsafe])]

/-! ## C2: the summarizer's selection -/

/-- C2, counterexample.  Sentences none of whose tokens occur in the
frequency table never receive a score and can never be selected, so the
summary can have fewer than `sentence_count` sentences.  On the text
`Cats cats cats. And the and. Or the or. And or the.` (tokenized into four
sentences; `and`, `or`, `the` are stopwords, so the frequency table is
`cats ↦ 2` — these are exactly the sentence boundaries, word tokens and
stopword judgments NLTK produces on this text, up to the punctuation-only
tokens, which are filtered as non-alphanumeric either way), only sentence 0
is scored, and with `sentence_count = 3` the returned summary consists of
one sentence, not three. -/
theorem summarizer_selection_counterexample :
    summarizeCore naiveSentences naiveWords ["and", "or", "the"]
        "Cats cats cats. And the and. Or the or. And or the." 3 =
      ⟨4, "Cats cats cats", 1⟩ ∧
    (naiveSentences "Cats cats cats. And the and. Or the or. And or the.").length = 4 ∧
    (1 : Nat) ≠ 3 := by
  refine ⟨by decide, by decide, by decide⟩

/-! ### Sorting lemmas for the selection -/

theorem insertSorted_perm (le : Nat → Nat → Bool) (a : Nat) (l : List Nat) :
    (insertSorted le a l).Perm (a :: l) := by
  induction l with
  | nil => exact List.Perm.refl _
  | cons b l ih =>
    unfold insertSorted
    by_cases h : le a b
    · rw [if_pos h]
    · rw [if_neg h]
      exact (ih.cons b).trans (List.Perm.swap a b l)

theorem sortBy_perm (le : Nat → Nat → Bool) (l : List Nat) :
    (sortBy le l).Perm l := by
  induction l with
  | nil => exact List.Perm.refl _
  | cons a l ih =>
    exact (insertSorted_perm le a (sortBy le l)).trans (ih.cons a)

theorem mem_insertSorted {le : Nat → Nat → Bool} {a x : Nat} {l : List Nat}
    (h : x ∈ insertSorted le a l) : x = a ∨ x ∈ l :=
  List.mem_cons.mp ((insertSorted_perm le a l).subset h)

theorem pairwise_insertSorted (le : Nat → Nat → Bool)
    (htrans : ∀ a b c, le a b = true → le b c = true → le a c = true)
    (htotal : ∀ a b, (le a b || le b a) = true)
    (a : Nat) (l : List Nat) (h : l.Pairwise (fun x y => le x y = true)) :
    (insertSorted le a l).Pairwise (fun x y => le x y = true) := by
  induction l with
  | nil => simp [insertSorted]
  | cons b l ih =>
    rw [List.pairwise_cons] at h
    unfold insertSorted
    by_cases hab : le a b
    · rw [if_pos hab]
      rw [List.pairwise_cons]
      refine ⟨?_, List.pairwise_cons.mpr h⟩
      intro x hx
      rcases List.mem_cons.mp hx with rfl | hx
      · exact hab
      · exact htrans a b x hab (h.1 x hx)
    · rw [if_neg hab]
      rw [List.pairwise_cons]
      refine ⟨?_, ih h.2⟩
      intro x hx
      rcases mem_insertSorted hx with rfl | hx
      · have := htotal x b
        rcases Bool.or_eq_true_iff.mp this with h' | h'
        · exact absurd h' hab
        · exact h'
      · exact h.1 x hx

theorem sortBy_pairwise (le : Nat → Nat → Bool)
    (htrans : ∀ a b c, le a b = true → le b c = true → le a c = true)
    (htotal : ∀ a b, (le a b || le b a) = true) (l : List Nat) :
    (sortBy le l).Pairwise (fun x y => le x y = true) := by
  induction l with
  | nil => simp [sortBy]
  | cons a l ih => exact pairwise_insertSorted le htrans htotal a (sortBy le l) ih

theorem scoreGE_trans (wordTok : String → List String) (stopWords : List String)
    (text : String) (sentences : List String) :
    ∀ a b c, scoreGE wordTok stopWords text sentences a b = true →
      scoreGE wordTok stopWords text sentences b c = true →
      scoreGE wordTok stopWords text sentences a c = true := by
  intro a b c hab hbc
  simp only [scoreGE, Bool.or_eq_true, Bool.and_eq_true, decide_eq_true_eq] at *
  rcases hab with h1 | ⟨h1, h1'⟩ <;> rcases hbc with h2 | ⟨h2, h2'⟩
  · exact Or.inl (lt_trans h2 h1)
  · exact Or.inl (h2 ▸ h1)
  · exact Or.inl (by rw [h1]; exact h2)
  · exact Or.inr ⟨h1.trans h2, le_trans h1' h2'⟩

theorem scoreGE_total (wordTok : String → List String) (stopWords : List String)
    (text : String) (sentences : List String) :
    ∀ a b, (scoreGE wordTok stopWords text sentences a b ||
      scoreGE wordTok stopWords text sentences b a) = true := by
  intro a b
  simp only [scoreGE, Bool.or_eq_true, Bool.and_eq_true, decide_eq_true_eq]
  rcases lt_trichotomy (sentenceScore wordTok stopWords text (sentences.getD a ""))
    (sentenceScore wordTok stopWords text (sentences.getD b "")) with h | h | h
  · exact Or.inr (Or.inl h)
  · rcases Nat.le_total a b with hn | hn
    · exact Or.inl (Or.inr ⟨h, hn⟩)
    · exact Or.inr (Or.inr ⟨h.symm, hn⟩)
  · exact Or.inl (Or.inl h)

/-- C2 as amended.  When the text has more sentences than `sentence_count`
and the frequency table is non-empty, the summary consists of the
`min(sentence_count, number of scored sentences)` highest-scoring
sentences — a sentence being scored exactly when at least one of its
tokens occurs in the frequency table — joined with `'. '` in their
original order; sentences with no in-table token are never selected, so
the summary can have fewer than `sentence_count` sentences. -/
theorem summarizer_selection (sentTok wordTok : String → List String)
    (stopWords : List String) (text : String) (k : Nat)
    (hk : k < (sentTok text).length)
    (hw : (freqWords wordTok stopWords text).isEmpty = false) :
    ∃ sel : List Nat,
      summarizeCore sentTok wordTok stopWords text k =
        ⟨(sentTok text).length,
         joinDotSpace (sel.map (fun i => (sentTok text).getD i "")),
         sel.length⟩ ∧
      sel.length = min k (scoredIndices sentTok wordTok stopWords text).length ∧
      List.Sorted (· ≤ ·) sel ∧ sel.Nodup ∧
      (∀ i ∈ sel, i ∈ scoredIndices sentTok wordTok stopWords text) ∧
      (∀ i ∈ sel, ∀ j ∈ scoredIndices sentTok wordTok stopWords text, j ∉ sel →
        sentenceScore wordTok stopWords text ((sentTok text).getD j "") ≤
          sentenceScore wordTok stopWords text ((sentTok text).getD i "")) := by
  set scored := scoredIndices sentTok wordTok stopWords text with hscored
  set le := scoreGE wordTok stopWords text (sentTok text) with hle
  set ranked := sortBy le scored with hranked
  set sel := selectedIndices sentTok wordTok stopWords text k with hsel
  have hperm : ranked.Perm scored := sortBy_perm le scored
  have hselperm : sel.Perm (ranked.take k) :=
    sortBy_perm (fun i j => decide (i ≤ j)) (ranked.take k)
  have hscored_nodup : scored.Nodup := by
    rw [hscored]
    exact (List.nodup_range _).filter _
  have hranked_nodup : ranked.Nodup := hperm.nodup_iff.mpr hscored_nodup
  have htake_nodup : (ranked.take k).Nodup :=
    hranked_nodup.sublist (List.take_sublist k ranked)
  refine ⟨sel, ?_, ?_, ?_, ?_, ?_, ?_⟩
  · show summarizeCore sentTok wordTok stopWords text k = _
    unfold summarizeCore
    rw [if_neg (by omega), if_neg (by simp [hw])]
  · rw [hselperm.length_eq, List.length_take, hperm.length_eq]
  · have := sortBy_pairwise (fun i j => decide (i ≤ j))
      (fun a b c h1 h2 => by
        simp only [decide_eq_true_eq] at *
        omega)
      (fun a b => by
        rcases Nat.le_total a b with h | h <;> simp [h]) (ranked.take k)
    exact this.imp (by simp)
  · exact hselperm.nodup_iff.mpr htake_nodup
  · intro i hi
    exact hperm.subset ((List.take_sublist k ranked).subset (hselperm.subset hi))
  · intro i hi j hj hnot
    have hit : i ∈ ranked.take k := hselperm.subset hi
    have hjd : j ∈ ranked.drop k := by
      have hjr : j ∈ ranked := hperm.mem_iff.mpr hj
      rw [← List.take_append_drop k ranked] at hjr
      rcases List.mem_append.mp hjr with hjk | hjk
      · exact absurd (hselperm.mem_iff.mpr hjk) hnot
      · exact hjk
    have hpw : ranked.Pairwise (fun x y => le x y = true) :=
      sortBy_pairwise le (scoreGE_trans wordTok stopWords text (sentTok text))
        (scoreGE_total wordTok stopWords text (sentTok text)) scored
    have hpw2 : (ranked.take k ++ ranked.drop k).Pairwise (fun x y => le x y = true) := by
      rw [List.take_append_drop]
      exact hpw
    have hsplit := (List.pairwise_append.mp hpw2).2.2
    have hij : le i j = true := hsplit i hit j hjd
    rw [hle] at hij
    simp only [scoreGE, Bool.or_eq_true, Bool.and_eq_true, decide_eq_true_eq] at hij
    rcases hij with h | ⟨h, -⟩
    · exact le_of_lt h
    · exact le_of_eq h.symm

/-- Witness for C2 at the four-sentence text of the counterexample. -/
theorem summarizer_selection_witness :
    (3 < (naiveSentences "Cats cats cats. And the and. Or the or. And or the.").length ∧
      (freqWords naiveWords ["and", "or", "the"]
        "Cats cats cats. And the and. Or the or. And or the.").isEmpty = false) ∧
    (∃ sel : List Nat,
      summarizeCore naiveSentences naiveWords ["and", "or", "the"]
          "Cats cats cats. And the and. Or the or. And or the." 3 =
        ⟨(naiveSentences "Cats cats cats. And the and. Or the or. And or the.").length,
         joinDotSpace (sel.map (fun i =>
           (naiveSentences "Cats cats cats. And the and. Or the or. And or the.").getD i "")),
         sel.length⟩ ∧
      sel.length = min 3 (scoredIndices naiveSentences naiveWords ["and", "or", "the"]
        "Cats cats cats. And the and. Or the or. And or the.").length ∧
      List.Sorted (· ≤ ·) sel ∧ sel.Nodup ∧
      (∀ i ∈ sel, i ∈ scoredIndices naiveSentences naiveWords ["and", "or", "the"]
        "Cats cats cats. And the and. Or the or. And or the.") ∧
      (∀ i ∈ sel, ∀ j ∈ scoredIndices naiveSentences naiveWords ["and", "or", "the"]
          "Cats cats cats. And the and. Or the or. And or the.", j ∉ sel →
        sentenceScore naiveWords ["and", "or", "the"]
            "Cats cats cats. And the and. Or the or. And or the."
            ((naiveSentences "Cats cats cats. And the and. Or the or. And or the.").getD j "") ≤
          sentenceScore naiveWords ["and", "or", "the"]
            "Cats cats cats. And the and. Or the or. And or the."
            ((naiveSentences "Cats cats cats. And the and. Or the or. And or the.").getD i ""))) :=
  ⟨⟨by decide, by decide⟩,
    summarizer_selection naiveSentences naiveWords ["and", "or", "the"]
      "Cats cats cats. And the and. Or the or. And or the." 3 (by decide) (by decide)⟩

/-! ## C9: summarize on short inputs -/

/-- C9.  For every valid summarize request whose sentence tokenization
yields at most `sentence_count` sentences, the endpoint returns the input
text unchanged except for `str.strip()`, with `original_sentence_count` and
`summary_sentence_count` both the number of tokenized sentences; the
frequency-scoring pipeline is not entered (the result does not depend on
the word tokenizer or the stopword list). -/
theorem summarize_short_identity (sentTok wordTok : String → List String)
    (stopWords : List String) (text : String) (k : Nat)
    (hv : summarizeRequestValid text k = true)
    (hn : (sentTok text).length ≤ k) :
    summarize_text sentTok wordTok stopWords text k =
      .ok ⟨(sentTok text).length, pyStrip text, (sentTok text).length⟩ := by
  have hlen : ¬ 100000 < text.length := by
    simp only [summarizeRequestValid, Bool.and_eq_true, decide_eq_true_eq] at hv
    omega
  simp only [summarize_text, hv, if_true, if_neg hlen, summarizeCore, if_pos hn]

/-- Witness for C9: a ten-word, 56-character text tokenized as one
sentence, summarized to at most 3 sentences. -/
theorem summarize_short_identity_witness :
    (summarizeRequestValid
        "alpha beta gamma delta epsilon zeta eta theta iota kappa" 3 = true ∧
      ((fun (s : String) => [s])
        "alpha beta gamma delta epsilon zeta eta theta iota kappa").length ≤ 3) ∧
    summarize_text (fun s => [s]) naiveWords []
      "alpha beta gamma delta epsilon zeta eta theta iota kappa" 3 =
      .ok ⟨1, pyStrip "alpha beta gamma delta epsilon zeta eta theta iota kappa", 1⟩ :=
  ⟨⟨by decide, by decide⟩,
    summarize_short_identity (fun s => [s]) naiveWords []
      "alpha beta gamma delta epsilon zeta eta theta iota kappa" 3
      (by decide) (by decide)⟩

/-- Witness for C4 at a concrete safe pattern. -/
theorem regex_passthrough_witness :
    (("a" : String).length ≤ 1000 ∧ ("b" : String).length ≤ 50000 ∧
      validate_regex_safety "a" = true) ∧
    test_regex (fun _ _ => []) (fun _ => true) "a" "b" =
      .ok ⟨((fun (_ : String) (_ : String) => ([] : List String)) "a"
              (sanitize_user_input "b" 50000)).take 1000,
           min 1000 ((fun (_ : String) (_ : String) => ([] : List String)) "a"
              (sanitize_user_input "b" 50000)).length⟩ :=
  ⟨⟨by decide, by decide, by decide⟩,
    (regex_passthrough (fun _ _ => []) (fun _ => true) "a" "b"
      (by decide) (by decide) rfl).1 (by decide)⟩

/-! ## Dict and pruning lemmas -/

theorem dictGet_upsert_self {β : Type} (k : String) (v : β) (l : List (String × β)) :
    dictGet k (dictUpsert k v l) = some v := by
  induction l with
  | nil => simp [dictUpsert, dictGet, List.lookup]
  | cons e rest ih =>
    obtain ⟨k', v'⟩ := e
    by_cases h : k' = k
    · simp [dictUpsert, h, dictGet, List.lookup]
    · simp only [dictUpsert, if_neg h]
      simpa [dictGet, List.lookup, beq_false_of_ne (Ne.symm h)] using ih

theorem dictGet_upsert_ne {β : Type} (k k' : String) (v : β) (l : List (String × β))
    (h : k' ≠ k) : dictGet k' (dictUpsert k v l) = dictGet k' l := by
  induction l with
  | nil => simp [dictUpsert, dictGet, List.lookup, beq_false_of_ne h]
  | cons e rest ih =>
    cases e with
    | mk a b =>
      by_cases ha : a = k
      · subst ha
        simp [dictUpsert, dictGet, List.lookup, beq_false_of_ne h]
      · simp only [dictUpsert, if_neg ha]
        by_cases hb : k' = a
        · subst hb
          simp [dictGet, List.lookup]
        · simpa [dictGet, List.lookup, beq_false_of_ne hb] using ih

theorem mem_dictUpsert {β : Type} {k : String} {v : β} {l : List (String × β)}
    {a : String × β} (h : a ∈ dictUpsert k v l) : a = (k, v) ∨ a ∈ l := by
  induction l with
  | nil => simpa [dictUpsert] using h
  | cons e rest ih =>
    cases e with
    | mk a' b' =>
      by_cases he : a' = k
      · simp only [dictUpsert, if_pos he, List.mem_cons] at h
        rcases h with h | h
        · subst he; exact Or.inl (by simpa using h)
        · exact Or.inr (List.mem_cons_of_mem _ h)
      · simp only [dictUpsert, if_neg he, List.mem_cons] at h
        rcases h with h | h
        · exact Or.inr (by simp [h])
        · rcases ih h with h' | h'
          · exact Or.inl h'
          · exact Or.inr (List.mem_cons_of_mem _ h')

theorem dictGet_mem {β : Type} {k : String} {l : List (String × β)} {v : β}
    (h : dictGet k l = some v) : (k, v) ∈ l := by
  induction l with
  | nil => simp [dictGet, List.lookup] at h
  | cons e rest ih =>
    cases e with
    | mk a b =>
      by_cases ha : k = a
      · subst ha
        simp [dictGet, List.lookup] at h
        simp [h]
      · simp only [dictGet, List.lookup, beq_false_of_ne ha] at h
        exact List.mem_cons_of_mem _ (ih h)

/-- Front-pruning a timestamp deque that is sorted ascending removes
exactly the timestamps older than `c` seconds: the code's `popleft` loop
(`while requests and current_time - requests[0] > c: popleft()`) computes
the filter keeping the timestamps within `c` of `t`. -/
theorem sorted_dropWhile_stale (c t : ℚ) (l : List ℚ)
    (hs : l.Sorted (· ≤ ·)) :
    l.dropWhile (fun r => decide (c < t - r)) =
      l.filter (fun r => decide (t - r ≤ c)) := by
  induction l with
  | nil => rfl
  | cons a l ih =>
    rw [List.sorted_cons] at hs
    by_cases h : c < t - a
    · rw [List.dropWhile_cons_of_pos (by simpa using h),
        List.filter_cons_of_neg (by simp; linarith)]
      exact ih hs.2
    · rw [List.dropWhile_cons_of_neg (by simpa using h),
        List.filter_cons_of_pos (by simp; linarith)]
      refine (congrArg _ ?_).trans rfl
      refine (List.filter_eq_self.mpr ?_).symm
      intro b hb
      have := hs.1 b hb
      simp only [decide_eq_true_eq]
      linarith


/-! ## C8: eviction bounds -/

/-- C8, counterexample.  In the per-minute limiter (`app/middleware.py`,
rate window 60 s), entries of other clients are *not* pruned on every
request: after client A requests at time 0 and client B at time 100 (no
periodic cleanup is due, since less than 300 s passed since start), A's
entry still stores timestamp 0, which is older than the 60-second rate
window relative to the current time 100. -/
theorem eviction_counterexample :
    (mwFinal 60 ⟨[], 0⟩ [("A", 0), ("B", 100)]).history =
      [("A", [0]), ("B", [100])] ∧
    ¬ ((100 : ℚ) - 0 ≤ 60) := by
  constructor
  · norm_num [mwFinal, mwDispatch, mwIsRateLimited, histGet, dictGet, dictUpsert,
      mwCleanup, List.lookup, List.dropWhile]
    decide
  · norm_num

/-- C7/C8 helper: the state left by `RateLimiterMiddleware.dispatch`. -/
theorem mainDispatch_state (limit window : Nat) (ip : String) (t : Int)
    (s : MainState) :
    ∃ entry : MainEntry,
      (mainDispatch limit window ip t s).2 =
        dictUpsert ip entry (mainCleanup window t s) ∧
      (mainDispatch limit window ip t s).1 = mainOutcomeOf limit window t entry ∧
      (entry = ⟨1, t⟩ ∨
        ∃ e, dictGet ip (mainCleanup window t s) = some e ∧
          entry = ⟨e.count + 1, e.timestamp⟩) := by
  refine ⟨mainEntryOf t (dictGet ip (mainCleanup window t s)), rfl, rfl, ?_⟩
  cases hget : dictGet ip (mainCleanup window t s) with
  | none => exact Or.inl rfl
  | some e => exact Or.inr ⟨e, rfl, rfl⟩

/-- C8, first half as amended (and as originally claimed for the limiter of
`app/main.py`): after the hourly limiter processes any request, every entry
remaining in `self.requests` has a stored timestamp within the window of
the current time — a client whose stored timestamp fell out of the window
was removed by the per-request cleanup loop. -/
theorem main_eviction_fresh (limit window : Nat) (ip : String) (t : Int)
    (s : MainState) (e : String × MainEntry)
    (he : e ∈ (mainDispatch limit window ip t s).2) :
    t - e.2.timestamp ≤ window := by
  obtain ⟨entry, hstate, -, hentry⟩ := mainDispatch_state limit window ip t s
  rw [hstate] at he
  have hclean : ∀ a : String × MainEntry, a ∈ mainCleanup window t s →
      t - a.2.timestamp ≤ window := by
    intro a ha
    have := List.of_mem_filter ha
    simpa using this
  rcases mem_dictUpsert he with h | h
  · subst h
    rcases hentry with h | ⟨e', hget, h⟩
    · simp [h]
    · have := hclean (ip, e') (dictGet_mem hget)
      simp only [h]
      simpa using this
  · exact hclean e h

/-- C8, second half as amended: when the periodic cleanup of the per-minute
limiter runs at time `t` (on sorted per-client deques, as produced by
monotone request times), every entry remaining afterwards is non-empty and
holds only timestamps within 300 seconds (the cleanup threshold — not the
60-second rate window) of `t`; clients left with no such timestamp are
removed from the map entirely. -/
theorem mw_cleanup_bound (t : ℚ) (h : List (String × List ℚ))
    (hs : ∀ e ∈ h, e.2.Sorted (· ≤ ·)) :
    ∀ e ∈ mwCleanup t h, e.2 ≠ [] ∧ ∀ r ∈ e.2, t - r ≤ 300 := by
  intro e he
  unfold mwCleanup at he
  have hmem := List.mem_of_mem_filter he
  have hne := List.of_mem_filter he
  simp only [List.mem_map] at hmem
  obtain ⟨e₀, he₀, rfl⟩ := hmem
  constructor
  · simpa using hne
  · intro r hr
    rw [sorted_dropWhile_stale 300 t _ (hs e₀ he₀)] at hr
    have := List.of_mem_filter hr
    simpa using this

/-- C7 helper for the hourly limiter: every accepted response carries
`X-RateLimit-Limit` equal to the configured limit, a non-negative
`X-RateLimit-Remaining` equal to the limit minus the count recorded for the
client in its current (first-request-anchored) window, and
`X-RateLimit-Reset` equal to the window's anchor plus the window length. -/
theorem mainDispatch_headers (limit window : Nat) (ip : String) (t : Int)
    (s : MainState) (L : Nat) (r rst : Int)
    (h : (mainDispatch limit window ip t s).1 = .accepted L r rst) :
    L = limit ∧ 0 ≤ r ∧
    ∃ e : MainEntry, dictGet ip (mainDispatch limit window ip t s).2 = some e ∧
      r = (limit : Int) - (e.count : Int) ∧ rst = e.timestamp + (window : Int) ∧
      1 ≤ e.count ∧ e.count ≤ limit := by
  obtain ⟨entry, hstate, hout, hentry⟩ := mainDispatch_state limit window ip t s
  rw [hout] at h
  unfold mainOutcomeOf at h
  split at h
  · exact absurd h (by simp)
  · rename_i hle
    obtain ⟨hL, hr, hrst⟩ : L = limit ∧ ((limit : Int) - (entry.count : Int)) = r ∧
        entry.timestamp + (window : Int) = rst := by
      cases h; exact ⟨rfl, rfl, rfl⟩
    have hcount : entry.count ≤ limit := by omega
    have hpos : 1 ≤ entry.count := by
      rcases hentry with he | ⟨e, -, he⟩ <;> simp [he]
    refine ⟨hL, by omega, entry, ?_, hr.symm, hrst.symm, hpos, hcount⟩
    rw [hstate]
    exact dictGet_upsert_self ip entry (mainCleanup window t s)

/-- C8 as amended.  First half (the original claim, true of the hourly
limiter in `app/main.py`): after processing any request, every client entry
remaining in `self.requests` has a stored timestamp within the window of
the current time, so a client whose stored timestamp fell out of the window
has been removed from the map entirely.  Second half (the per-minute
limiter in `app/middleware.py`): between periodic cleanups a client's stale
timestamps may survive in the map (`eviction_counterexample`); when the
periodic cleanup runs at time `t` on sorted deques, afterwards every
remaining entry is non-empty and holds only timestamps within 300 seconds
(the cleanup threshold, not the 60-second rate window) of `t`, and clients
with none are removed. -/
theorem eviction_bounds :
    (∀ (limit window : Nat) (ip : String) (t : Int) (s : MainState)
      (e : String × MainEntry), e ∈ (mainDispatch limit window ip t s).2 →
      t - e.2.timestamp ≤ window) ∧
    (∀ (t : ℚ) (h : List (String × List ℚ)),
      (∀ e ∈ h, e.2.Sorted (· ≤ ·)) →
      ∀ e ∈ mwCleanup t h, e.2 ≠ [] ∧ ∀ r ∈ e.2, t - r ≤ 300) :=
  ⟨fun limit window ip t s e he => main_eviction_fresh limit window ip t s e he,
   fun t h hs => mw_cleanup_bound t h hs⟩

/-- Witness for C8: a fresh entry after a request to the hourly limiter,
and a periodic cleanup of the per-minute limiter that drops a stale client
and keeps a fresh one. -/
theorem eviction_bounds_witness :
    ((mainDispatch 2 3600 "A" 5 []).2 = [("A", ⟨1, 5⟩)] ∧
      (∀ e ∈ ([("A", [0]), ("B", [400])] : List (String × List ℚ)),
        e.2.Sorted (· ≤ ·)) ∧
      mwCleanup 400 [("A", [0]), ("B", [400])] = [("B", [400])]) ∧
    ((5 : Int) - (("A", (⟨1, 5⟩ : MainEntry)) : String × MainEntry).2.timestamp ≤
        (3600 : Nat)) ∧
    ((("B", [(400 : ℚ)]) : String × List ℚ).2 ≠ [] ∧
      ∀ r ∈ (("B", [(400 : ℚ)]) : String × List ℚ).2, (400 : ℚ) - r ≤ 300) := by
  have hsort : ∀ e ∈ ([("A", [0]), ("B", [400])] : List (String × List ℚ)),
      e.2.Sorted (· ≤ ·) := by
    intro e he
    simp only [List.mem_cons, List.not_mem_nil, or_false] at he
    rcases he with rfl | rfl <;> simp
  have hclean : mwCleanup 400 [("A", [(0 : ℚ)]), ("B", [400])] = [("B", [400])] := by
    norm_num [mwCleanup, List.dropWhile]
  have hmem : ("A", (⟨1, 5⟩ : MainEntry)) ∈ (mainDispatch 2 3600 "A" 5 []).2 := by
    decide
  have hmem2 : (("B", [(400 : ℚ)]) : String × List ℚ) ∈
      mwCleanup 400 [("A", [0]), ("B", [400])] := by
    rw [hclean]
    simp
  exact ⟨⟨by decide, hsort, hclean⟩,
    eviction_bounds.1 2 3600 "A" 5 [] _ hmem,
    eviction_bounds.2 400 _ hsort _ hmem2⟩

/-! ## C1, counterexample for the installed limiter -/

/-- C1, counterexample.  The limiter installed on the app
(`RateLimiterMiddleware` in `app/main.py`, here with `limit = 2`,
`window = 3600`) is not a sliding window.  Client A requests at times
0, 3599, 3601, 3602.  At time 3601 the cleanup deletes A's entry (anchored
at its first request, time 0) and restarts the count, so the requests at
3601 and 3602 are both accepted — although at time 3602 the requests
already recorded for A within the 3600-second window ending at 3602
(namely 3599 and 3601) have reached the limit 2, so the claimed sliding
window would reject the request. -/
theorem sliding_window_counterexample :
    mainRun 2 3600 [] [("A", 0), ("A", 3599), ("A", 3601), ("A", 3602)] =
      [.accepted 2 1 3600, .accepted 2 0 3600, .accepted 2 1 7201, .accepted 2 0 7201] ∧
    recordedTimesInt "A" [("A", 0), ("A", 3599), ("A", 3601)]
        [.accepted 2 1 3600, .accepted 2 0 3600, .accepted 2 1 7201] =
      [0, 3599, 3601] ∧
    2 ≤ inWindowCountInt 3600 [0, 3599, 3601] 3602 := by
  refine ⟨by decide, by decide, by decide⟩

/-! ## Simulation between `RateLimitMiddleware` and the sliding-window
specification -/

theorem dropWhile_eq_drop {α : Type} (p : α → Bool) (l : List α) :
    ∃ k, k ≤ l.length ∧ l.dropWhile p = l.drop k ∧ ∀ x ∈ l.take k, p x = true := by
  induction l with
  | nil => exact ⟨0, by simp, rfl, by simp⟩
  | cons a l ih =>
    by_cases h : p a = true
    · obtain ⟨k, hk, hdrop, htake⟩ := ih
      refine ⟨k + 1, by simpa using hk, ?_, ?_⟩
      · rw [List.dropWhile_cons_of_pos h]
        simpa using hdrop
      · intro x hx
        simp only [List.take_succ_cons, List.mem_cons] at hx
        rcases hx with rfl | hx
        · exact h
        · exact htake x hx
    · refine ⟨0, by simp, ?_, by simp⟩
      rw [List.dropWhile_cons_of_neg h]
      simp

theorem mem_keys_dictUpsert {β : Type} {k x : String} {v : β}
    {l : List (String × β)} (h : x ∈ (dictUpsert k v l).map Prod.fst) :
    x = k ∨ x ∈ l.map Prod.fst := by
  simp only [List.mem_map] at h
  obtain ⟨e, he, rfl⟩ := h
  rcases mem_dictUpsert he with h | h
  · subst h; exact Or.inl rfl
  · exact Or.inr (List.mem_map_of_mem _ h)

theorem dictKeysOk_upsert {β : Type} (k : String) (v : β)
    {l : List (String × β)} (h : dictKeysOk l) : dictKeysOk (dictUpsert k v l) := by
  induction l with
  | nil => simp [dictUpsert, dictKeysOk]
  | cons e rest ih =>
    obtain ⟨a, b⟩ := e
    simp only [dictKeysOk, List.map_cons, List.nodup_cons] at h
    by_cases ha : a = k
    · simpa [dictUpsert, ha, dictKeysOk] using h
    · have := ih h.2
      simp only [dictUpsert, if_neg ha, dictKeysOk, List.map_cons, List.nodup_cons]
      refine ⟨?_, this⟩
      intro hmem
      rcases mem_keys_dictUpsert hmem with h' | h'
      · exact ha h'
      · exact h.1 h'

theorem keys_mwCleanup_sublist (t : ℚ) (h : List (String × List ℚ)) :
    ((mwCleanup t h).map Prod.fst).Sublist (h.map Prod.fst) := by
  unfold mwCleanup
  have h1 : ((h.map (fun e => (e.1, e.2.dropWhile (fun r => decide (300 < t - r))))).filter
      (fun e => !e.2.isEmpty)).Sublist
      (h.map (fun e => (e.1, e.2.dropWhile (fun r => decide (300 < t - r))))) :=
    List.filter_sublist _
  have h2 := h1.map Prod.fst
  rwa [List.map_map, show (Prod.fst ∘ fun e : String × List ℚ =>
    (e.1, e.2.dropWhile (fun r => decide (300 < t - r)))) = Prod.fst from rfl] at h2

theorem dictKeysOk_mwCleanup (t : ℚ) {h : List (String × List ℚ)}
    (hk : dictKeysOk h) : dictKeysOk (mwCleanup t h) :=
  (keys_mwCleanup_sublist t h).nodup hk

theorem dictGet_eq_none {β : Type} {k : String} {l : List (String × β)}
    (h : k ∉ l.map Prod.fst) : dictGet k l = none := by
  induction l with
  | nil => rfl
  | cons e rest ih =>
    obtain ⟨a, b⟩ := e
    simp only [List.map_cons, List.mem_cons] at h
    push_neg at h
    simp only [dictGet, List.lookup, beq_false_of_ne h.1]
    exact ih h.2

theorem dictGet_cons {β : Type} (ip a : String) (v : β) (rest : List (String × β)) :
    dictGet ip ((a, v) :: rest) = if ip = a then some v else dictGet ip rest := by
  by_cases h : ip = a
  · subst h
    simp [dictGet, List.lookup]
  · simp [dictGet, List.lookup, beq_false_of_ne h, h]

theorem histGet_mwCleanup (t : ℚ) (h : List (String × List ℚ))
    (hk : dictKeysOk h) (ip : String) :
    histGet (mwCleanup t h) ip =
      (histGet h ip).dropWhile (fun r => decide (300 < t - r)) := by
  induction h with
  | nil => simp [mwCleanup, histGet, dictGet, List.lookup]
  | cons e rest ih =>
    obtain ⟨a, q⟩ := e
    simp only [dictKeysOk, List.map_cons, List.nodup_cons] at hk
    have ihr := ih hk.2
    have hstep : mwCleanup t ((a, q) :: rest) =
        if (q.dropWhile (fun r => decide (300 < t - r))).isEmpty then mwCleanup t rest
        else (a, q.dropWhile (fun r => decide (300 < t - r))) :: mwCleanup t rest := by
      simp only [mwCleanup, List.map_cons, List.filter_cons]
      by_cases hq : (q.dropWhile (fun r => decide (300 < t - r))).isEmpty <;> simp [hq]
    by_cases hip : ip = a
    · subst hip
      have hR : histGet ((ip, q) :: rest) ip = q := by
        rw [histGet, dictGet_cons, if_pos rfl]
        rfl
      rw [hR, hstep]
      by_cases hq : (q.dropWhile (fun r => decide (300 < t - r))).isEmpty
      · rw [if_pos hq]
        have hnone : dictGet ip (mwCleanup t rest) = none := by
          apply dictGet_eq_none
          intro hmem
          exact hk.1 ((keys_mwCleanup_sublist t rest).subset hmem)
        rw [histGet, hnone, List.isEmpty_iff.mp hq]
        rfl
      · rw [if_neg hq, histGet, dictGet_cons, if_pos rfl]
        rfl
    · have hR : histGet ((a, q) :: rest) ip = histGet rest ip := by
        rw [histGet, dictGet_cons, if_neg hip]
        rfl
      rw [hR, hstep]
      by_cases hq : (q.dropWhile (fun r => decide (300 < t - r))).isEmpty
      · rw [if_pos hq]
        exact ihr
      · rw [if_neg hq, histGet, dictGet_cons, if_neg hip]
        exact ihr

theorem histGet_upsert_self (ip : String) (q : List ℚ) (h : List (String × List ℚ)) :
    histGet (dictUpsert ip q h) ip = q := by
  rw [histGet, dictGet_upsert_self]
  rfl

theorem histGet_upsert_ne (ip x : String) (q : List ℚ) (h : List (String × List ℚ))
    (hx : x ≠ ip) : histGet (dictUpsert ip q h) x = histGet h x := by
  rw [histGet, dictGet_upsert_ne ip x q h hx, histGet]

theorem histInv_mono {τ τ' : ℚ} (h : τ ≤ τ') {acc hist : List ℚ}
    (hi : HistInv τ acc hist) : HistInv τ' acc hist := by
  obtain ⟨k, hk, hdrop, htake⟩ := hi
  exact ⟨k, hk, hdrop, fun r hr => lt_of_lt_of_le (htake r hr) (by linarith)⟩

theorem accOk_mono {τ τ' : ℚ} (h : τ ≤ τ') {acc : List ℚ}
    (ha : AccOk τ acc) : AccOk τ' acc :=
  ⟨ha.1, fun r hr => le_trans (ha.2 r hr) h⟩

theorem mwRel_mono {τ τ' : ℚ} (h : τ ≤ τ') {s : MwState} {f : String → List ℚ}
    (hr : MwRel τ s f) : MwRel τ' s f :=
  ⟨hr.1, fun ip => ⟨accOk_mono h (hr.2 ip).1, histInv_mono h (hr.2 ip).2⟩⟩

/-- Pruning a lazily-maintained deque at the current time yields exactly
the in-window timestamps of the full recorded list, and the pruned deque is
again a sound lazy view. -/
theorem histInv_prune (t : ℚ) (acc hist : List ℚ) (hacc : AccOk t acc)
    (hinv : HistInv t acc hist) :
    hist.dropWhile (fun r => decide (60 < t - r)) =
      acc.filter (fun r => decide (t - r ≤ 60)) ∧
    HistInv t acc (hist.dropWhile (fun r => decide (60 < t - r))) := by
  obtain ⟨k, hk, hdrop, htake⟩ := hinv
  subst hdrop
  have hsorted : (acc.drop k).Sorted (· ≤ ·) :=
    List.Pairwise.sublist (List.drop_sublist k acc) hacc.1
  have htail : (acc.drop k).dropWhile (fun r => decide (60 < t - r)) =
      (acc.drop k).filter (fun r => decide (t - r ≤ 60)) :=
    sorted_dropWhile_stale 60 t _ hsorted
  have hhead : (acc.take k).filter (fun r => decide (t - r ≤ 60)) = [] := by
    rw [List.filter_eq_nil_iff]
    intro r hr
    have := htake r hr
    simp only [decide_eq_true_eq]
    linarith
  constructor
  · rw [htail]
    conv_rhs => rw [← List.take_append_drop k acc]
    rw [List.filter_append, hhead, List.nil_append]
  · obtain ⟨m, hm, hdrop2, htake2⟩ :=
      dropWhile_eq_drop (fun r => decide (60 < t - r)) (acc.drop k)
    refine ⟨k + m, ?_, ?_, ?_⟩
    · have := List.length_drop k acc
      omega
    · rw [hdrop2, List.drop_drop, Nat.add_comm]
    · intro r hr
      rw [List.take_add] at hr
      rcases List.mem_append.mp hr with hr | hr
      · exact htake r hr
      · have := htake2 r hr
        simpa using this

/-- The periodic cleanup (at the current time) preserves the simulation
relation: it only drops timestamps that are more than 300 seconds — hence
more than 60 seconds — old. -/
theorem mwRel_cleanup (t : ℚ) (s : MwState) (f : String → List ℚ)
    (hrel : MwRel t s f) : MwRel t ⟨mwCleanup t s.history, t⟩ f := by
  obtain ⟨hkeys, hprops⟩ := hrel
  refine ⟨dictKeysOk_mwCleanup t hkeys, fun ip => ⟨(hprops ip).1, ?_⟩⟩
  have hget : histGet (mwCleanup t s.history) ip =
      (histGet s.history ip).dropWhile (fun r => decide (300 < t - r)) :=
    histGet_mwCleanup t s.history hkeys ip
  show HistInv t (f ip) (histGet (MwState.mk (mwCleanup t s.history) t).history ip)
  rw [show (MwState.mk (mwCleanup t s.history) t).history = mwCleanup t s.history from rfl,
    hget]
  obtain ⟨k, hk, hdrop, htake⟩ := (hprops ip).2
  rw [hdrop]
  obtain ⟨m, hm, hdrop2, htake2⟩ :=
    dropWhile_eq_drop (fun r => decide (300 < t - r)) ((f ip).drop k)
  refine ⟨k + m, ?_, ?_, ?_⟩
  · have := List.length_drop k (f ip)
    omega
  · rw [hdrop2, List.drop_drop, Nat.add_comm]
  · intro r hr
    rw [List.take_add] at hr
    rcases List.mem_append.mp hr with hr | hr
    · exact htake r hr
    · have := htake2 r hr
      simp only [decide_eq_true_eq] at this
      linarith

/-- The state update performed before `_is_rate_limited`: either no cleanup
is due and the state is unchanged, or the cleanup runs at the current time;
both preserve the simulation relation. -/
theorem mwRel_s1 (t : ℚ) (s : MwState) (f : String → List ℚ)
    (hrel : MwRel t s f) :
    MwRel t (if 300 < t - s.lastCleanup then ⟨mwCleanup t s.history, t⟩ else s) f := by
  split
  · exact mwRel_cleanup t s f hrel
  · exact hrel

/-- One step of `RateLimitMiddleware.dispatch` simulates one step of the
sliding-window specification: the outcome (including the emitted headers)
coincides, and the relation is preserved with the client's recorded list
extended exactly when the request was accepted. -/
theorem mwDispatch_step (rpm : Nat) (ip : String) (t : ℚ) (s : MwState)
    (f : String → List ℚ) (hrel : MwRel t s f) :
    (mwDispatch rpm ip t s).1 = (slidingStep rpm (f ip) t).1 ∧
    MwRel t (mwDispatch rpm ip t s).2
      (fun x => if x = ip then (slidingStep rpm (f ip) t).2 else f x) := by
  have hrel1 := mwRel_s1 t s f hrel
  simp only [mwDispatch, mwIsRateLimited]
  set s1 : MwState :=
    if 300 < t - s.lastCleanup then ⟨mwCleanup t s.history, t⟩ else s with hs1
  obtain ⟨hkeys1, hprops1⟩ := hrel1
  have hacc : AccOk t (f ip) := (hprops1 ip).1
  have hpr := histInv_prune t (f ip) (histGet s1.history ip) hacc (hprops1 ip).2
  have hpr2 : HistInv t (f ip)
      ((f ip).filter (fun r => decide (t - r ≤ 60))) := hpr.1 ▸ hpr.2
  rw [hpr.1]
  simp only [slidingStep, inWindowCount]
  by_cases hlim : rpm ≤ ((f ip).filter (fun r => decide (t - r ≤ 60))).length
  · rw [if_pos (by simpa using hlim), if_pos hlim]
    refine ⟨rfl, ?_⟩
    refine ⟨dictKeysOk_upsert ip _ hkeys1, fun x => ?_⟩
    simp only [Prod.snd]
    by_cases hx : x = ip
    · subst hx
      rw [if_pos rfl, histGet_upsert_self]
      exact ⟨hacc, hpr2⟩
    · rw [if_neg hx, histGet_upsert_ne _ _ _ _ hx]
      exact hprops1 x
  · rw [if_neg (by simpa using hlim), if_neg hlim]
    have hinner : histGet (dictUpsert ip ((f ip).filter (fun r => decide (t - r ≤ 60)))
        s1.history) ip = (f ip).filter (fun r => decide (t - r ≤ 60)) :=
      histGet_upsert_self ..
    rw [hinner]
    have houter : histGet (dictUpsert ip
        ((f ip).filter (fun r => decide (t - r ≤ 60)) ++ [t])
        (dictUpsert ip ((f ip).filter (fun r => decide (t - r ≤ 60))) s1.history)) ip =
        (f ip).filter (fun r => decide (t - r ≤ 60)) ++ [t] :=
      histGet_upsert_self ..
    rw [houter]
    constructor
    · simp [List.length_append]
    · refine ⟨dictKeysOk_upsert ip _ (dictKeysOk_upsert ip _ hkeys1), fun x => ?_⟩
      simp only [Prod.snd]
      by_cases hx : x = ip
      · subst hx
        rw [if_pos rfl, histGet_upsert_self]
        constructor
        · constructor
          · have hpw : List.Pairwise (· ≤ ·) (f x ++ [t]) := by
              rw [List.pairwise_append]
              exact ⟨hacc.1, List.pairwise_singleton _ _,
                fun a ha b hb => by
                  rw [List.mem_singleton] at hb
                  subst hb
                  exact hacc.2 a ha⟩
            exact hpw
          · intro r hr
            rcases List.mem_append.mp hr with hr | hr
            · exact hacc.2 r hr
            · rw [List.mem_singleton] at hr
              exact le_of_eq hr
        · obtain ⟨k, hk, hdrop, htake⟩ := hpr2
          refine ⟨k, ?_, ?_, ?_⟩
          · rw [List.length_append]
            omega
          · rw [List.drop_append_of_le_length hk, hdrop]
          · intro r hr
            rw [List.take_append_of_le_length hk] at hr
            exact htake r hr
      · rw [if_neg hx, histGet_upsert_ne _ _ _ _ hx, histGet_upsert_ne _ _ _ _ hx]
        exact hprops1 x

/-- Trace-level simulation: on a trace with nondecreasing request times
(starting from a state related at an earlier time), `RateLimitMiddleware`
produces exactly the outcomes of the sliding-window specification. -/
theorem mwRun_eq_pure (rpm : Nat) (trace : List (String × ℚ)) :
    ∀ (s : MwState) (f : String → List ℚ) (τ : ℚ), MwRel τ s f →
      List.Chain (· ≤ ·) τ (trace.map Prod.snd) →
      mwRun rpm s trace = mwPureRun rpm f trace := by
  induction trace with
  | nil => intro s f τ _ _; rfl
  | cons e rest ih =>
    obtain ⟨ip, t⟩ := e
    intro s f τ hrel hchain
    rw [List.map_cons, List.chain_cons] at hchain
    have hrelt : MwRel t s f := mwRel_mono hchain.1 hrel
    obtain ⟨hout, hrel'⟩ := mwDispatch_step rpm ip t s f hrelt
    show (mwDispatch rpm ip t s).1 :: mwRun rpm (mwDispatch rpm ip t s).2 rest = _
    rw [hout, ih (mwDispatch rpm ip t s).2 _ t hrel' hchain.2]
    rfl

/-- The pure run on a prefix is the prefix of the pure run. -/
theorem mwPureRun_take (rpm : Nat) (trace : List (String × ℚ)) :
    ∀ (f : String → List ℚ) (i : Nat),
      mwPureRun rpm f (trace.take i) = (mwPureRun rpm f trace).take i := by
  induction trace with
  | nil =>
    intro f i
    cases i <;> rfl
  | cons e rest ih =>
    obtain ⟨ip, t⟩ := e
    intro f i
    cases i with
    | zero => rfl
    | succ i =>
      show (slidingStep rpm (f ip) t).1 :: mwPureRun rpm _ (rest.take i) = _
      rw [ih _ i]
      rfl

/-- The per-client recorded list accumulated by the pure run is the initial
list extended by the timestamps of the client's accepted requests. -/
theorem mwPureAcc_eq (rpm : Nat) (trace : List (String × ℚ)) :
    ∀ (f : String → List ℚ) (ip : String),
      mwPureAcc rpm f trace ip =
        f ip ++ recordedTimes ip trace (mwPureRun rpm f trace) := by
  induction trace with
  | nil => intro f ip; simp [mwPureAcc, recordedTimes]
  | cons e rest ih =>
    obtain ⟨ip', t⟩ := e
    intro f ip
    show mwPureAcc rpm _ rest ip = _
    rw [ih]
    show _ = f ip ++ recordedTimes ip ((ip', t) :: rest)
      ((slidingStep rpm (f ip') t).1 :: mwPureRun rpm _ rest)
    by_cases hip : ip' = ip
    · subst hip
      by_cases hrej : rpm ≤ inWindowCount (f ip') t
      · have h1 : (slidingStep rpm (f ip') t).2 = f ip' := by
          simp [slidingStep, if_pos hrej]
        have h2 : (slidingStep rpm (f ip') t).1 = .rejected := by
          simp [slidingStep, if_pos hrej]
        simp [recordedTimes, h1, h2]
      · have h1 : (slidingStep rpm (f ip') t).2 = f ip' ++ [t] := by
          simp [slidingStep, if_neg hrej]
        have h2 : (slidingStep rpm (f ip') t).1 =
            .accepted rpm (rpm - (inWindowCount (f ip') t + 1)) ⌊t + 60⌋ := by
          simp [slidingStep, if_neg hrej]
        simp [recordedTimes, h1, h2]
    · simp [recordedTimes, hip, Ne.symm hip]

theorem mwPureRun_getD (rpm : Nat) (trace : List (String × ℚ)) :
    ∀ (f : String → List ℚ) (i : Nat), i < trace.length →
      (mwPureRun rpm f trace).getD i .rejected =
        (slidingStep rpm (mwPureAcc rpm f (trace.take i) (trace.getD i ("", 0)).1)
          (trace.getD i ("", 0)).2).1 := by
  induction trace with
  | nil => intro f i hi; simp at hi
  | cons e rest ih =>
    obtain ⟨ip, t⟩ := e
    intro f i hi
    cases i with
    | zero => rfl
    | succ i =>
      show (mwPureRun rpm _ rest).getD i .rejected = _
      rw [ih _ i (by simpa using hi)]
      rfl

/-- A sliding-window step rejects exactly when the in-window recorded count
has reached the limit. -/
theorem slidingStep_rejected_iff (rpm : Nat) (recorded : List ℚ) (t : ℚ) :
    (slidingStep rpm recorded t).1 = .rejected ↔
      rpm ≤ inWindowCount recorded t := by
  unfold slidingStep
  by_cases h : rpm ≤ inWindowCount recorded t
  · simp [if_pos h, h]
  · simp [if_neg h, h]

/-- The middleware's starting state (empty history, `last_cleanup` set at
construction) is related to the empty recorded map. -/
theorem mwRel_init (t₀ : ℚ) : MwRel t₀ ⟨[], t₀⟩ (fun _ => []) := by
  refine ⟨by simp [dictKeysOk], fun ip => ⟨⟨List.sorted_nil, by simp⟩, 0, by simp, ?_, by simp⟩⟩
  simp [histGet, dictGet, List.lookup]

/-- C1 as amended.  The per-minute limiter (`RateLimitMiddleware` in
`app/middleware.py`) is a sliding window: for every sequence of
timestamped requests to a non-exempt path with nondecreasing times, the
`i`-th request is rejected with HTTP 429 if and only if the number of
requests already recorded for its client IP whose timestamps lie within
the 60-second window ending at the request's time has reached the
per-minute limit; requests that fell out of the window never count (and a
rejected request is never recorded).  The hourly limiter installed in
`app/main.py` (`RateLimiterMiddleware`) does *not* satisfy this property:
it counts requests in a fixed window anchored at the client's first
recorded request, also counting rejected requests
(`sliding_window_counterexample`). -/
theorem sliding_window_iff (rpm : Nat) (t₀ : ℚ) (trace : List (String × ℚ))
    (hmono : List.Chain (· ≤ ·) t₀ (trace.map Prod.snd)) (i : Nat)
    (hi : i < trace.length) :
    (mwRun rpm ⟨[], t₀⟩ trace).getD i .rejected = .rejected ↔
      rpm ≤ inWindowCount
        (recordedTimes (trace.getD i ("", 0)).1 (trace.take i)
          ((mwRun rpm ⟨[], t₀⟩ trace).take i))
        (trace.getD i ("", 0)).2 := by
  have hrun := mwRun_eq_pure rpm trace ⟨[], t₀⟩ (fun _ => []) t₀ (mwRel_init t₀) hmono
  rw [hrun, mwPureRun_getD rpm trace _ i hi, slidingStep_rejected_iff,
    ← mwPureRun_take, mwPureAcc_eq]
  simp

/-- The pure sliding-window run treats clients independently: the outcomes
of one client's requests are a function of that client's own request times
and initial recorded list. -/
theorem outcomesAt_mwPure (rpm : Nat) (trace : List (String × ℚ)) :
    ∀ (f : String → List ℚ) (ip : String),
      outcomesAt ip trace (mwPureRun rpm f trace) =
        mwClientRun rpm (f ip)
          ((trace.filter (fun e => decide (e.1 = ip))).map Prod.snd) := by
  induction trace with
  | nil => intro f ip; rfl
  | cons e rest ih =>
    obtain ⟨ip', t⟩ := e
    intro f ip
    show outcomesAt ip ((ip', t) :: rest)
      ((slidingStep rpm (f ip') t).1 :: mwPureRun rpm _ rest) = _
    by_cases hip : ip' = ip
    · subst hip
      rw [show outcomesAt ip' ((ip', t) :: rest)
          ((slidingStep rpm (f ip') t).1 :: mwPureRun rpm
            (fun x => if x = ip' then (slidingStep rpm (f ip') t).2 else f x) rest) =
          (slidingStep rpm (f ip') t).1 :: outcomesAt ip' rest (mwPureRun rpm
            (fun x => if x = ip' then (slidingStep rpm (f ip') t).2 else f x) rest) from by
        simp [outcomesAt]]
      rw [ih]
      simp [mwClientRun, List.filter_cons]
    · rw [show outcomesAt ip ((ip', t) :: rest)
          ((slidingStep rpm (f ip') t).1 :: mwPureRun rpm
            (fun x => if x = ip' then (slidingStep rpm (f ip') t).2 else f x) rest) =
          outcomesAt ip rest (mwPureRun rpm
            (fun x => if x = ip' then (slidingStep rpm (f ip') t).2 else f x) rest) from by
        simp [outcomesAt, hip]]
      rw [ih]
      simp [List.filter_cons, hip, Ne.symm hip]

/-! ## Simulation between `RateLimiterMiddleware` and its per-client view -/

theorem mainRel_mono {window : Nat} {τ τ' : Int} (h : τ ≤ τ') {s : MainState}
    {g : String → Option MainEntry} (hr : MainRel window τ s g) :
    MainRel window τ' s g := by
  refine ⟨hr.1, fun ip => ?_⟩
  have := hr.2 ip
  cases hg : g ip with
  | none =>
    rw [hg] at this
    cases hd : dictGet ip s with
    | none => simp
    | some e => rw [hd] at this; exact this
  | some e =>
    rw [hg] at this
    cases hd : dictGet ip s with
    | none =>
      rw [hd] at this
      show (window : Int) < τ' - e.timestamp
      omega
    | some e' => rw [hd] at this; exact this

theorem dictKeysOk_mainCleanup (window : Nat) (t : Int) {s : MainState}
    (hk : dictKeysOk s) : dictKeysOk (mainCleanup window t s) :=
  ((List.filter_sublist s).map Prod.fst).nodup hk

theorem dictGet_mainCleanup (window : Nat) (t : Int) (s : MainState)
    (hk : dictKeysOk s) (ip : String) :
    dictGet ip (mainCleanup window t s) =
      match dictGet ip s with
      | none => none
      | some e => if t - e.timestamp ≤ window then some e else none := by
  induction s with
  | nil => rfl
  | cons e rest ih =>
    obtain ⟨a, v⟩ := e
    simp only [dictKeysOk, List.map_cons, List.nodup_cons] at hk
    have ihr := ih hk.2
    have hstep : mainCleanup window t ((a, v) :: rest) =
        if t - v.timestamp ≤ window then (a, v) :: mainCleanup window t rest
        else mainCleanup window t rest := by
      simp only [mainCleanup, List.filter_cons]
      by_cases hv : t - v.timestamp ≤ window <;> simp [hv]
    by_cases hip : ip = a
    · subst hip
      by_cases hv : t - v.timestamp ≤ window
      · simp [hstep, dictGet_cons, hv]
      · rw [hstep, if_neg hv]
        rw [show (match dictGet ip ((ip, v) :: rest) with
            | none => none
            | some e => if t - e.timestamp ≤ (window : Int) then some e else none) =
            (none : Option MainEntry) from by
          rw [dictGet_cons, if_pos rfl]
          simp [hv]]
        apply dictGet_eq_none
        intro hmem
        exact hk.1 (((List.filter_sublist rest).map Prod.fst).subset hmem)
    · rw [hstep, dictGet_cons, if_neg hip]
      by_cases hv : t - v.timestamp ≤ window
      · rw [if_pos hv, dictGet_cons, if_neg hip]
        exact ihr
      · rw [if_neg hv]
        exact ihr

/-- One step of `RateLimiterMiddleware.dispatch` simulates the per-client
view: the outcome coincides and the relation is preserved. -/
theorem mainDispatch_step (limit window : Nat) (ip : String) (t : Int)
    (s : MainState) (g : String → Option MainEntry)
    (hrel : MainRel window t s g) :
    (mainDispatch limit window ip t s).1 = (mainClientStep limit window (g ip) t).1 ∧
    MainRel window t (mainDispatch limit window ip t s).2
      (fun x => if x = ip then some (mainClientStep limit window (g ip) t).2 else g x) := by
  obtain ⟨hk, hprops⟩ := hrel
  have hclean := dictGet_mainCleanup window t s hk
  have hmatch : dictGet ip (mainCleanup window t s) = staleDrop window t (g ip) := by
    rw [hclean]
    have hp := hprops ip
    cases hg : g ip with
    | none =>
      rw [hg] at hp
      cases hd : dictGet ip s with
      | none => rfl
      | some e => rw [hd] at hp; exact absurd hp (by simp)
    | some e =>
      rw [hg] at hp
      cases hd : dictGet ip s with
      | none =>
        rw [hd] at hp
        have hp' : (window : Int) < t - e.timestamp := hp
        show (none : Option MainEntry) =
          if (window : Int) < t - e.timestamp then none else some e
        rw [if_pos hp']
      | some e' =>
        rw [hd] at hp
        have hpe : e = e' := hp
        subst hpe
        show (if t - e.timestamp ≤ (window : Int) then some e else none) =
          if (window : Int) < t - e.timestamp then none else some e
        by_cases hfresh : t - e.timestamp ≤ (window : Int)
        · rw [if_pos hfresh, if_neg (by omega)]
        · rw [if_neg hfresh, if_pos (by omega)]
  have hout : (mainDispatch limit window ip t s).1 =
      (mainClientStep limit window (g ip) t).1 := by
    show mainOutcomeOf limit window t
      (mainEntryOf t (dictGet ip (mainCleanup window t s))) = _
    rw [hmatch]
    rfl
  have hself : dictGet ip (mainDispatch limit window ip t s).2 =
      some ((mainClientStep limit window (g ip) t).2) := by
    show dictGet ip (dictUpsert ip
      (mainEntryOf t (dictGet ip (mainCleanup window t s))) (mainCleanup window t s)) = _
    rw [dictGet_upsert_self, hmatch]
    rfl
  refine ⟨hout, ?_, fun x => ?_⟩
  · show dictKeysOk (dictUpsert ip
      (mainEntryOf t (dictGet ip (mainCleanup window t s))) (mainCleanup window t s))
    exact dictKeysOk_upsert _ _ (dictKeysOk_mainCleanup window t hk)
  · by_cases hx : x = ip
    · rw [hx]
      simp only [if_pos rfl]
      rw [hself]
      simp
    · simp only [if_neg hx]
      have hne : dictGet x (mainDispatch limit window ip t s).2 =
          dictGet x (mainCleanup window t s) := by
        show dictGet x (dictUpsert ip
          (mainEntryOf t (dictGet ip (mainCleanup window t s)))
          (mainCleanup window t s)) = _
        exact dictGet_upsert_ne _ _ _ _ hx
      rw [hne, hclean]
      have hp := hprops x
      cases hg : g x with
      | none =>
        rw [hg] at hp
        cases hd : dictGet x s with
        | none => simp
        | some e => rw [hd] at hp; exact absurd hp (by simp)
      | some e =>
        rw [hg] at hp
        cases hd : dictGet x s with
        | none =>
          rw [hd] at hp
          have hp' : (window : Int) < t - e.timestamp := hp
          simp only
          show (window : Int) < t - e.timestamp
          exact hp'
        | some e' =>
          rw [hd] at hp
          have hpe : e = e' := hp
          subst hpe
          simp only
          by_cases hfresh : t - e.timestamp ≤ (window : Int)
          · rw [if_pos hfresh]
          · rw [if_neg hfresh]
            show (window : Int) < t - e.timestamp
            omega

/-- Trace-level simulation for the hourly limiter. -/
theorem mainRun_eq_pure (limit window : Nat) (trace : List (String × Int)) :
    ∀ (s : MainState) (g : String → Option MainEntry) (τ : Int),
      MainRel window τ s g →
      List.Chain (· ≤ ·) τ (trace.map Prod.snd) →
      mainRun limit window s trace = mainPureRun limit window g trace := by
  induction trace with
  | nil => intro s g τ _ _; rfl
  | cons e rest ih =>
    obtain ⟨ip, t⟩ := e
    intro s g τ hrel hchain
    rw [List.map_cons, List.chain_cons] at hchain
    have hrelt : MainRel window t s g := mainRel_mono hchain.1 hrel
    obtain ⟨hout, hrel'⟩ := mainDispatch_step limit window ip t s g hrelt
    show (mainDispatch limit window ip t s).1 ::
      mainRun limit window (mainDispatch limit window ip t s).2 rest = _
    rw [hout, ih (mainDispatch limit window ip t s).2 _ t hrel' hchain.2]
    rfl

/-- The pure per-client run treats clients independently. -/
theorem outcomesAt_mainPure (limit window : Nat) (trace : List (String × Int)) :
    ∀ (g : String → Option MainEntry) (ip : String),
      outcomesAt ip trace (mainPureRun limit window g trace) =
        mainClientRun limit window (g ip)
          ((trace.filter (fun e => decide (e.1 = ip))).map Prod.snd) := by
  induction trace with
  | nil => intro g ip; rfl
  | cons e rest ih =>
    obtain ⟨ip', t⟩ := e
    intro g ip
    show outcomesAt ip ((ip', t) :: rest)
      ((mainClientStep limit window (g ip') t).1 :: mainPureRun limit window _ rest) = _
    by_cases hip : ip' = ip
    · subst hip
      rw [show outcomesAt ip' ((ip', t) :: rest)
          ((mainClientStep limit window (g ip') t).1 :: mainPureRun limit window
            (fun x => if x = ip' then some (mainClientStep limit window (g ip') t).2
              else g x) rest) =
          (mainClientStep limit window (g ip') t).1 :: outcomesAt ip' rest
            (mainPureRun limit window
              (fun x => if x = ip' then some (mainClientStep limit window (g ip') t).2
                else g x) rest) from by
        simp [outcomesAt]]
      rw [ih]
      simp [mainClientRun, List.filter_cons]
    · rw [show outcomesAt ip ((ip', t) :: rest)
          ((mainClientStep limit window (g ip') t).1 :: mainPureRun limit window
            (fun x => if x = ip' then some (mainClientStep limit window (g ip') t).2
              else g x) rest) =
          outcomesAt ip rest (mainPureRun limit window
            (fun x => if x = ip' then some (mainClientStep limit window (g ip') t).2
              else g x) rest) from by
        simp [outcomesAt, hip]]
      rw [ih]
      simp [List.filter_cons, hip, Ne.symm hip]

/-- The hourly limiter's starting state (empty dict) is related to the
empty per-client map at any time. -/
theorem mainRel_init (window : Nat) (τ : Int) :
    MainRel window τ [] (fun _ => none) := by
  refine ⟨by simp [dictKeysOk], fun ip => ?_⟩
  simp [dictGet, List.lookup]

/-- C6.  Rate limiting is per-IP in both limiters: for any two request
histories (with nondecreasing times) whose subsequences of requests from
IP `A` coincide, the outcomes of `A`'s requests — acceptance or the 429
rejection, together with all emitted header values — are identical; other
clients' requests never consume `A`'s quota.  Stated for the per-minute
sliding-window limiter (`RateLimitMiddleware`) and the installed hourly
limiter (`RateLimiterMiddleware`). -/
theorem per_ip_noninterference :
    (∀ (rpm : Nat) (t₀ : ℚ) (trace₁ trace₂ : List (String × ℚ)) (A : String),
      List.Chain (· ≤ ·) t₀ (trace₁.map Prod.snd) →
      List.Chain (· ≤ ·) t₀ (trace₂.map Prod.snd) →
      trace₁.filter (fun e => decide (e.1 = A)) =
        trace₂.filter (fun e => decide (e.1 = A)) →
      outcomesAt A trace₁ (mwRun rpm ⟨[], t₀⟩ trace₁) =
        outcomesAt A trace₂ (mwRun rpm ⟨[], t₀⟩ trace₂)) ∧
    (∀ (limit window : Nat) (τ₀ : Int) (trace₁ trace₂ : List (String × Int)) (A : String),
      List.Chain (· ≤ ·) τ₀ (trace₁.map Prod.snd) →
      List.Chain (· ≤ ·) τ₀ (trace₂.map Prod.snd) →
      trace₁.filter (fun e => decide (e.1 = A)) =
        trace₂.filter (fun e => decide (e.1 = A)) →
      outcomesAt A trace₁ (mainRun limit window [] trace₁) =
        outcomesAt A trace₂ (mainRun limit window [] trace₂)) := by
  constructor
  · intro rpm t₀ trace₁ trace₂ A h1 h2 heq
    rw [mwRun_eq_pure rpm trace₁ ⟨[], t₀⟩ (fun _ => []) t₀ (mwRel_init t₀) h1,
      mwRun_eq_pure rpm trace₂ ⟨[], t₀⟩ (fun _ => []) t₀ (mwRel_init t₀) h2,
      outcomesAt_mwPure, outcomesAt_mwPure, heq]
  · intro limit window τ₀ trace₁ trace₂ A h1 h2 heq
    rw [mainRun_eq_pure limit window trace₁ [] (fun _ => none) τ₀
        (mainRel_init window τ₀) h1,
      mainRun_eq_pure limit window trace₂ [] (fun _ => none) τ₀
        (mainRel_init window τ₀) h2,
      outcomesAt_mainPure, outcomesAt_mainPure, heq]

/-- Witness for C6: interleaving a request from client B between two
requests of client A changes nothing about A's outcomes, in either
limiter. -/
theorem per_ip_noninterference_witness :
    ((List.Chain (· ≤ ·) (0 : ℚ)
        (([("A", 0), ("B", 1), ("A", 2)] : List (String × ℚ)).map Prod.snd) ∧
      List.Chain (· ≤ ·) (0 : ℚ)
        (([("A", 0), ("A", 2)] : List (String × ℚ)).map Prod.snd) ∧
      ([("A", 0), ("B", 1), ("A", 2)] : List (String × ℚ)).filter
          (fun e => decide (e.1 = "A")) =
        ([("A", 0), ("A", 2)] : List (String × ℚ)).filter
          (fun e => decide (e.1 = "A")) ∧
      List.Chain (· ≤ ·) (0 : Int)
        (([("A", 0), ("B", 1), ("A", 2)] : List (String × Int)).map Prod.snd) ∧
      List.Chain (· ≤ ·) (0 : Int)
        (([("A", 0), ("A", 2)] : List (String × Int)).map Prod.snd) ∧
      ([("A", 0), ("B", 1), ("A", 2)] : List (String × Int)).filter
          (fun e => decide (e.1 = "A")) =
        ([("A", 0), ("A", 2)] : List (String × Int)).filter
          (fun e => decide (e.1 = "A")))) ∧
    (outcomesAt "A" [("A", 0), ("B", 1), ("A", 2)]
        (mwRun 60 ⟨[], 0⟩ [("A", 0), ("B", 1), ("A", 2)]) =
      outcomesAt "A" [("A", 0), ("A", 2)]
        (mwRun 60 ⟨[], 0⟩ [("A", 0), ("A", 2)]) ∧
      outcomesAt "A" [("A", 0), ("B", 1), ("A", 2)]
        (mainRun 100 3600 [] [("A", 0), ("B", 1), ("A", 2)]) =
      outcomesAt "A" [("A", 0), ("A", 2)]
        (mainRun 100 3600 [] [("A", 0), ("A", 2)])) :=
  ⟨⟨by simp [List.chain_cons], by simp [List.chain_cons],
      by simp [List.filter], by simp [List.chain_cons], by simp [List.chain_cons],
      by simp [List.filter]⟩,
    per_ip_noninterference.1 60 0 [("A", 0), ("B", 1), ("A", 2)] [("A", 0), ("A", 2)] "A"
      (by simp [List.chain_cons]) (by simp [List.chain_cons]) (by simp [List.filter]),
    per_ip_noninterference.2 100 3600 0 [("A", 0), ("B", 1), ("A", 2)] [("A", 0), ("A", 2)] "A"
      (by simp [List.chain_cons]) (by simp [List.chain_cons]) (by simp [List.filter])⟩

/-! ## C7: header emission -/

/-- An accepted sliding-window step emits the claimed header values. -/
theorem slidingStep_accepted (rpm : Nat) (recorded : List ℚ) (t : ℚ)
    (L rem : Nat) (rst : Int)
    (h : (slidingStep rpm recorded t).1 = .accepted L rem rst) :
    L = rpm ∧ rem = rpm - (inWindowCount recorded t + 1) ∧
    inWindowCount recorded t + 1 ≤ rpm ∧ rst = ⌊t + 60⌋ := by
  unfold slidingStep at h
  by_cases hc : rpm ≤ inWindowCount recorded t
  · rw [if_pos hc] at h
    exact absurd h (by simp)
  · rw [if_neg hc] at h
    obtain ⟨hL, hrem, hrst⟩ : rpm = L ∧ rpm - (inWindowCount recorded t + 1) = rem ∧
        ⌊t + 60⌋ = rst := by cases h; exact ⟨rfl, rfl, rfl⟩
    exact ⟨hL.symm, hrem.symm, by omega, hrst.symm⟩

/-- C7.  Header emission.  For the per-minute sliding-window limiter
(`RateLimitMiddleware`): every response to a non-exempt request that is not
rejected carries `X-RateLimit-Limit` equal to the configured per-minute
limit, `X-RateLimit-Remaining` equal to the limit minus the number of
requests recorded for that client within the 60-second window ending at the
request's time (the just-recorded current request included) — never
negative, since that number cannot exceed the limit on an accepted
request — and `X-RateLimit-Reset` equal to `int(current_time + 60)`.
For the hourly limiter (`RateLimiterMiddleware`): every accepted response
carries the configured limit, a non-negative remaining equal to the limit
minus the count recorded for the client in its current
(first-request-anchored) window, and a reset equal to the window's anchor
plus the window length. -/
theorem rate_limit_headers :
    (∀ (rpm : Nat) (t₀ : ℚ) (trace : List (String × ℚ)),
      List.Chain (· ≤ ·) t₀ (trace.map Prod.snd) →
      ∀ i, i < trace.length →
      ∀ (L rem : Nat) (rst : Int),
        (mwRun rpm ⟨[], t₀⟩ trace).getD i .rejected = .accepted L rem rst →
        L = rpm ∧
        rem = rpm - (inWindowCount
          (recordedTimes (trace.getD i ("", 0)).1 (trace.take i)
            ((mwRun rpm ⟨[], t₀⟩ trace).take i)) (trace.getD i ("", 0)).2 + 1) ∧
        inWindowCount
          (recordedTimes (trace.getD i ("", 0)).1 (trace.take i)
            ((mwRun rpm ⟨[], t₀⟩ trace).take i)) (trace.getD i ("", 0)).2 + 1 ≤ rpm ∧
        rst = ⌊(trace.getD i ("", 0)).2 + 60⌋) ∧
    (∀ (limit window : Nat) (ip : String) (t : Int) (s : MainState)
      (L : Nat) (r rst : Int),
      (mainDispatch limit window ip t s).1 = .accepted L r rst →
      L = limit ∧ 0 ≤ r ∧
      ∃ e : MainEntry, dictGet ip (mainDispatch limit window ip t s).2 = some e ∧
        r = (limit : Int) - (e.count : Int) ∧ rst = e.timestamp + (window : Int) ∧
        1 ≤ e.count ∧ e.count ≤ limit) := by
  constructor
  · intro rpm t₀ trace hmono i hi L rem rst hacc
    have hrun := mwRun_eq_pure rpm trace ⟨[], t₀⟩ (fun _ => []) t₀ (mwRel_init t₀) hmono
    rw [hrun] at hacc ⊢
    rw [mwPureRun_getD rpm trace _ i hi] at hacc
    obtain ⟨hL, hrem, hle, hrst⟩ := slidingStep_accepted _ _ _ _ _ _ hacc
    have hR : recordedTimes (trace.getD i ("", 0)).1 (trace.take i)
        ((mwPureRun rpm (fun _ => []) trace).take i) =
        mwPureAcc rpm (fun _ => []) (trace.take i) (trace.getD i ("", 0)).1 := by
      rw [← mwPureRun_take, mwPureAcc_eq]
      simp
    rw [hR]
    exact ⟨hL, hrem, hle, hrst⟩
  · intro limit window ip t s L r rst h
    exact mainDispatch_headers limit window ip t s L r rst h

/-- Witness for C7 at concrete accepted requests in both limiters. -/
theorem rate_limit_headers_witness :
    (List.Chain (· ≤ ·) (0 : ℚ) (([("A", 0), ("A", 10)] : List (String × ℚ)).map Prod.snd) ∧
      1 < ([("A", 0), ("A", 10)] : List (String × ℚ)).length ∧
      (mwRun 2 ⟨[], 0⟩ [("A", 0), ("A", 10)]).getD 1 .rejected = .accepted 2 0 70 ∧
      (mainDispatch 2 3600 "A" 5 []).1 = .accepted 2 1 3605) ∧
    ((2 = 2 ∧
      0 = 2 - (inWindowCount
        (recordedTimes (([("A", 0), ("A", 10)] : List (String × ℚ)).getD 1 ("", 0)).1
          (([("A", 0), ("A", 10)] : List (String × ℚ)).take 1)
          ((mwRun 2 ⟨[], 0⟩ [("A", 0), ("A", 10)]).take 1))
        (([("A", 0), ("A", 10)] : List (String × ℚ)).getD 1 ("", 0)).2 + 1) ∧
      inWindowCount
        (recordedTimes (([("A", 0), ("A", 10)] : List (String × ℚ)).getD 1 ("", 0)).1
          (([("A", 0), ("A", 10)] : List (String × ℚ)).take 1)
          ((mwRun 2 ⟨[], 0⟩ [("A", 0), ("A", 10)]).take 1))
        (([("A", 0), ("A", 10)] : List (String × ℚ)).getD 1 ("", 0)).2 + 1 ≤ 2 ∧
      (70 : Int) = ⌊(([("A", 0), ("A", 10)] : List (String × ℚ)).getD 1 ("", 0)).2 + 60⌋) ∧
    (2 = 2 ∧ (0 : Int) ≤ 1 ∧
      ∃ e : MainEntry, dictGet "A" (mainDispatch 2 3600 "A" 5 []).2 = some e ∧
        (1 : Int) = (2 : Int) - (e.count : Int) ∧ (3605 : Int) = e.timestamp + (3600 : Int) ∧
        1 ≤ e.count ∧ e.count ≤ 2)) := by
  have hmw : (mwRun 2 ⟨[], 0⟩ [("A", 0), ("A", 10)]).getD 1 .rejected =
      .accepted 2 0 70 := by
    norm_num [mwRun, mwDispatch, mwIsRateLimited, histGet, dictGet, dictUpsert,
      mwCleanup, List.lookup, List.dropWhile]
  have hmain : (mainDispatch 2 3600 "A" 5 []).1 = .accepted 2 1 3605 := by decide
  refine ⟨⟨by simp [List.chain_cons], by simp, hmw, hmain⟩,
    rate_limit_headers.1 2 0 [("A", 0), ("A", 10)] (by simp [List.chain_cons]) 1
      (by simp) 2 0 70 hmw,
    rate_limit_headers.2 2 3600 "A" 5 [] 2 1 3605 hmain⟩

/-- Witness for C1: with a per-minute limit of 1, a second request from the
same IP ten seconds after the first is rejected. -/
theorem sliding_window_iff_witness :
    (List.Chain (· ≤ ·) (0 : ℚ) (([("A", 0), ("A", 10)] : List (String × ℚ)).map Prod.snd) ∧
      1 < ([("A", 0), ("A", 10)] : List (String × ℚ)).length) ∧
    ((mwRun 1 ⟨[], 0⟩ [("A", 0), ("A", 10)]).getD 1 .rejected = .rejected ↔
      1 ≤ inWindowCount
        (recordedTimes (([("A", 0), ("A", 10)] : List (String × ℚ)).getD 1 ("", 0)).1
          (([("A", 0), ("A", 10)] : List (String × ℚ)).take 1)
          ((mwRun 1 ⟨[], 0⟩ [("A", 0), ("A", 10)]).take 1))
        (([("A", 0), ("A", 10)] : List (String × ℚ)).getD 1 ("", 0)).2) :=
  ⟨⟨by simp [List.chain_cons], by simp⟩,
    sliding_window_iff 1 0 [("A", 0), ("A", 10)]
      (by simp [List.chain_cons]) 1 (by simp)⟩

end DevApiVault
